import Mathlib

/-!
Shallow embedding of the `working_sheet_pdf_extractor` repository:
`lib/pdf_document_object_model.py` (the document model) and
`lib/workbooks/F42_Beltz_TT_Zwangsstörungen_Fricke.py` (the identification
pipeline).  Python dicts are modelled as insertion-ordered association lists,
Python's dynamically typed values as the inductive `PyVal`, and machine
integers as `Int` (Python ints are unbounded, so no modular wrap is needed).
-/

namespace WSPE

/-- Model of a dynamically typed Python value as it occurs in this program:
strings, ints, `None`, lists and dicts (insertion-ordered association lists).
Floats, bools and other types do not occur in the data handled here. -/
inductive PyVal where
  | vstr (s : String)
  | vint (n : Int)
  | vnone
  | vlist (l : List PyVal)
  | vdict (d : List (PyVal × PyVal))

/-- Python whitespace (`\s` for `str` patterns / `str.strip()`): ASCII
whitespace plus the C1 separators, NEL and NBSP that occur in practice.
(Other rare Unicode space code points are not modelled; the texts handled
by this program do not contain them.) -/
def isSpacePy (c : Char) : Bool :=
  c = ' ' || c = '\t' || c = '\n' || c = '\r' || c = '\x0b' || c = '\x0c' ||
  c = '\x1c' || c = '\x1d' || c = '\x1e' || c = '\x1f' || c = '\x85' || c = '\xa0'

/-- Python word character (`\w`): ASCII alphanumerics, underscore, and — as
an approximation of Unicode letters/digits — every non-ASCII code point
(all non-ASCII characters in the German texts handled here are letters). -/
def isWordPy (c : Char) : Bool :=
  c.isAlphanum || c = '_' || c.val > 127

/-- Python `\d` (ASCII decimal digit; non-ASCII digits are not modelled). -/
def isDigitPy (c : Char) : Bool := c.isDigit

/-- Characters matched by `[\x00-\x1f\x7f]` in `clean_header_text`. -/
def isCtrlPy (c : Char) : Bool := c.val ≤ 0x1f || c.val = 0x7f

/-- Python `str.lower()` restricted to ASCII and Latin-1 letters. -/
def toLowerPy (c : Char) : Char :=
  if 0xc0 ≤ c.val ∧ c.val ≤ 0xde ∧ c.val ≠ 0xd7 then Char.ofNat (c.val.toNat + 0x20)
  else c.toLower

/-- Drop matching characters from both ends of a character list. -/
def stripBoth (p : Char → Bool) (l : List Char) : List Char :=
  ((l.dropWhile p).reverse.dropWhile p).reverse

/-- Python `str.strip()` (no argument): strip whitespace from both ends. -/
def pyStrip (l : List Char) : List Char := stripBoth isSpacePy l

/-- Python `str.strip(chars)`: strip any of the given characters from both ends. -/
def pyStripChars (cs : List Char) (l : List Char) : List Char :=
  stripBoth (fun c => c ∈ cs) l

/-- Split a character list at whitespace (empty chunks included). -/
def splitWS (l : List Char) : List (List Char) :=
  l.foldr
    (fun c acc =>
      if isSpacePy c then [] :: acc
      else
        match acc with
        | [] => [[c]]
        | w :: ws => (c :: w) :: ws)
    []

/-- `re.sub(r"\s+", " ", s).strip()`: collapse whitespace runs to single
spaces and trim the ends — equivalently, join the whitespace-separated
words with single spaces. -/
def collapseWS (l : List Char) : List Char :=
  List.intercalate [' '] ((splitWS l).filter (fun w => !w.isEmpty))

/-- `clean_header_text` (F42 workbook, lines 12–24): replace control
characters and NBSP by spaces, collapse whitespace, trim.  The source
replaces each *run* of control characters by one space; replacing each
control character individually gives the same result after the collapse
step, so that is how it is written here. -/
def clean_header_text (s : String) : String :=
  ⟨collapseWS (s.data.map (fun c =>
    if isCtrlPy c then ' ' else if c = '\xa0' then ' ' else c))⟩

/-- Decimal digit character (for modelling Python's `str(int)`). -/
def digitCharPy (n : Nat) : Char := Char.ofNat (48 + n)

/-- Decimal digits of a natural number, most significant first
(models Python's `str` on a non-negative int). -/
def natPrint (m : Nat) : List Char :=
  if h : m < 10 then [digitCharPy m]
  else natPrint (m / 10) ++ [digitCharPy (m % 10)]
termination_by m
decreasing_by
  exact Nat.div_lt_self (by omega) (by omega)

/-- Python `str(n)` for an int `n`: decimal, with a leading minus sign
for negative values. -/
def pyStrInt (n : Int) : String :=
  match n with
  | .ofNat m => ⟨natPrint m⟩
  | .negSucc m => ⟨'-' :: natPrint (m + 1)⟩

/-- Numeric value of a decimal digit character. -/
def digitValPy (c : Char) : Nat := c.toNat - 48

/-- Parse a non-empty all-digit character list as a natural number. -/
def parseNatDigits (l : List Char) : Option Nat :=
  if l.isEmpty then none
  else if l.all isDigitPy then some (l.foldl (fun a c => a * 10 + digitValPy c) 0)
  else none

/-- Python `int(s)` on an already-stripped string: optional sign followed by
decimal digits, `None` on failure (a `ValueError` in Python).  Underscore
digit grouping and non-ASCII digits are not modelled. -/
def pyParseIntChars (l : List Char) : Option Int :=
  match l with
  | [] => none
  | c :: rest =>
    if c = '-' then (parseNatDigits rest).map (fun m => -(m : Int))
    else if c = '+' then (parseNatDigits rest).map (fun m => (m : Int))
    else (parseNatDigits (c :: rest)).map (fun m => (m : Int))

mutual

/-- Python `repr` of a value (quotes around strings are built from the
code point to keep the development ASCII-clean; escaping inside strings
is not modelled — no claim depends on the exact repr text). -/
def pyRepr : PyVal → String
  | .vstr s => ⟨Char.ofNat 39 :: s.data ++ [Char.ofNat 39]⟩
  | .vint n => pyStrInt n
  | .vnone => "None"
  | .vlist l => "[" ++ pyReprList l ++ "]"
  | .vdict d => "\x7b" ++ pyReprDict d ++ "\x7d"

/-- Comma-separated reprs of list elements. -/
def pyReprList : List PyVal → String
  | [] => ""
  | [x] => pyRepr x
  | x :: y :: xs => pyRepr x ++ ", " ++ pyReprList (y :: xs)

/-- Comma-separated `key: value` reprs of dict items. -/
def pyReprDict : List (PyVal × PyVal) → String
  | [] => ""
  | [(k, v)] => pyRepr k ++ ": " ++ pyRepr v
  | (k, v) :: kv :: xs => pyRepr k ++ ": " ++ pyRepr v ++ ", " ++ pyReprDict (kv :: xs)

end

/-- Python `str(v)`: identity on strings, `repr`-like otherwise. -/
def pyStr (v : PyVal) : String :=
  match v with
  | .vstr s => s
  | v => pyRepr v

/-- Python truthiness of a value (`if v:`). -/
def pyTruthy (v : PyVal) : Bool :=
  match v with
  | .vstr s => !s.isEmpty
  | .vint n => n ≠ 0
  | .vnone => false
  | .vlist l => !l.isEmpty
  | .vdict d => !d.isEmpty

/-- Python `int(p)` on a value (`_normalize_pages` element conversion):
ints pass through, strings are stripped and parsed, everything else is a
`TypeError`/`ValueError`, modelled as `none`. -/
def pyInt (v : PyVal) : Option Int :=
  match v with
  | .vint n => some n
  | .vstr s => pyParseIntChars (pyStrip s.data)
  | _ => none

/-- Iterating a Python value (`for p in v`): lists yield their elements,
strings their characters, dicts their keys; ints and `None` are not
iterable (`TypeError`), modelled as `none`. -/
def pyIterElems (v : PyVal) : Option (List PyVal) :=
  match v with
  | .vlist l => some l
  | .vstr s => some (s.data.map (fun c => .vstr ⟨[c]⟩))
  | .vdict d => some (d.map (fun kv => kv.1))
  | _ => none

/-! ### Insertion-ordered dict model -/

/-- Python dict lookup on an insertion-ordered association list
(keys are unique in any dict built by this program). -/
def dictGet {α β : Type} [DecidableEq α] (d : List (α × β)) (k : α) : Option β :=
  match d with
  | [] => none
  | (k', v) :: rest => if k' = k then some v else dictGet rest k

/-- Python dict assignment `d[k] = v`: update in place if the key exists
(keeping its position), append otherwise. -/
def dictSet {α β : Type} [DecidableEq α] (d : List (α × β)) (k : α) (v : β) : List (α × β) :=
  match d with
  | [] => [(k, v)]
  | (k', v') :: rest => if k' = k then (k, v) :: rest else (k', v') :: dictSet rest k v

/-- Python `d.get(key)` on a `PyVal` dict with a string key: a non-string
key of the dict never equals a string key, so such entries are passed over. -/
def dictGetStr (d : List (PyVal × PyVal)) (k : String) : Option PyVal :=
  match d with
  | [] => none
  | (.vstr k', v) :: rest => if k' = k then some v else dictGetStr rest k
  | _ :: rest => dictGetStr rest k

/-! ### Sorted deduplication (`sorted(dict.fromkeys(...))`) -/

/-- Insert an integer into a strictly ascending list, keeping it strictly
ascending (no duplicate is introduced). -/
def insertSD (x : Int) : List Int → List Int
  | [] => [x]
  | y :: ys => if x < y then x :: y :: ys else if x = y then y :: ys else y :: insertSD x ys

/-- `sorted(dict.fromkeys(l))`: the strictly ascending enumeration of the
distinct elements of `l`. -/
def sortedDedup (l : List Int) : List Int := l.foldr insertSD []

/-! ### The document model (`lib/pdf_document_object_model.py`) -/

/-- `PdfDocument._normalize_pages` (lines 47–58): convert each element with
`int(p)` (skipping failures), keep only positive values, then
`sorted(dict.fromkeys(...))`. -/
def normalize_pages (pages : List PyVal) : List Int :=
  sortedDedup (((pages.filterMap pyInt).filter (fun n => 0 < n)))

/-- `PdfDocument._coerce_id_to_int` (lines 60–78): `None` → 0; ints pass
through; otherwise `str(v).strip()` is parsed with `int(...)`, falling back
to a leading digit run (`^\s*(\d+)` on the stripped string), else 0. -/
def coerce_id_to_int (v : PyVal) : Int :=
  match v with
  | .vnone => 0
  | .vint n => n
  | v =>
    let s := pyStrip (pyStr v).data
    if s.isEmpty then 0
    else
      match pyParseIntChars s with
      | some n => n
      | none =>
        let d := s.takeWhile isDigitPy
        match parseNatDigits d with
        | some m => (m : Int)
        | none => 0

/-- The per-document model: `working_sheets` maps an int id to a mapping
from sheet name to a page list (`Dict[int, Dict[str, List[int]]]`, modelled
as insertion-ordered association lists).  `pdf_path` is kept as a string. -/
structure PdfDocument where
  pdf_filename : String
  pdf_path : String
  working_sheets : List (Int × List (String × List Int)) := []
deriving DecidableEq, Repr

/-- `PdfDocument.add_working_sheet` (lines 80–102): skip when `name` is
empty; otherwise coerce the id, normalize the new pages, and either merge
with `sorted(dict.fromkeys(existing + new_pages))` when the `(id, name)`
entry exists or store the (possibly empty) normalized list.  The
`setdefault` + in-place bucket mutation is one association-list update. -/
def add_working_sheet (doc : PdfDocument) (id_ : PyVal) (name : String)
    (pages : List PyVal) : PdfDocument :=
  if name = "" then doc
  else
    let id_key := coerce_id_to_int id_
    let new_pages := normalize_pages pages
    let bucket := (dictGet doc.working_sheets id_key).getD []
    let bucket' :=
      match dictGet bucket name with
      | some existing => dictSet bucket name (sortedDedup (existing ++ new_pages))
      | none => dictSet bucket name new_pages
    { doc with working_sheets := dictSet doc.working_sheets id_key bucket' }

/-- `PdfDocument.get_pages` (lines 104–106). -/
def get_pages (doc : PdfDocument) (id_ : PyVal) (name : String) : List Int :=
  (dictGet ((dictGet doc.working_sheets (coerce_id_to_int id_)).getD []) name).getD []

/-- `PdfDocument.to_dict` (lines 108–118): ids become their decimal strings,
page lists stay lists of ints. -/
def to_dict (doc : PdfDocument) : List (PyVal × PyVal) :=
  [(.vstr "pdf_filename", .vstr doc.pdf_filename),
   (.vstr "pdf_path", .vstr doc.pdf_path),
   (.vstr "working_sheets", .vdict (doc.working_sheets.map (fun kb =>
     (.vstr (pyStrInt kb.1), .vdict (kb.2.map (fun np =>
       (.vstr np.1, .vlist (np.2.map .vint))))))))]

/-- One `(name, pages)` item of one id bucket inside `from_dict`
(lines 140–144): `_normalize_pages(pages or [])` raises a `TypeError`
(modelled as `none`) when `pages` is truthy but not iterable; a non-empty
normalized list is stored under the coerced id. -/
def from_dict_item (id_key : Int) (ws : List (Int × List (String × List Int)))
    (nk : PyVal) (pv : PyVal) : Option (List (Int × List (String × List Int))) :=
  match pyIterElems (if pyTruthy pv then pv else .vlist []) with
  | none => none
  | some elems =>
    let norm := normalize_pages elems
    if norm.isEmpty then some ws
    else some (dictSet ws id_key (dictSet ((dictGet ws id_key).getD []) (pyStr nk) norm))

/-- One top-level `working_sheets` entry inside `from_dict` (lines 135–144):
non-dict values are skipped with a warning; dict values are walked item by
item. -/
def from_dict_entry (ws : List (Int × List (String × List Int)))
    (kv : PyVal × PyVal) : Option (List (Int × List (String × List Int))) :=
  match kv.2 with
  | .vdict bucket =>
    bucket.foldlM (fun acc np => from_dict_item (coerce_id_to_int kv.1) acc np.1 np.2) ws
  | _ => some ws

/-- `PdfDocument.from_dict` (lines 120–147): filename and path default to
`""`; a falsy `working_sheets` value becomes `{}`; a truthy non-dict value
makes the function return the empty document early.  `none` models an
uncaught exception. -/
def from_dict (data : List (PyVal × PyVal)) : Option PdfDocument :=
  let fn := pyStr ((dictGetStr data "pdf_filename").getD (.vstr ""))
  let fp := pyStr ((dictGetStr data "pdf_path").getD (.vstr ""))
  let wsv := (dictGetStr data "working_sheets").getD .vnone
  let wsv := if pyTruthy wsv then wsv else .vdict []
  match wsv with
  | .vdict entries =>
    (entries.foldlM from_dict_entry []).map
      (fun ws => { pdf_filename := fn, pdf_path := fp, working_sheets := ws })
  | _ => some { pdf_filename := fn, pdf_path := fp, working_sheets := [] }

/-! ### Hand-compiled matchers for the regular expressions of the F42 workbook

Each Python pattern is compiled to a dedicated scanner over `List Char`.
`\b` is checked through the character preceding the current position. -/

/-- `\b` holds before a word character iff the previous character (if any)
is not a word character. -/
def boundaryOk (prev : Option Char) : Bool :=
  match prev with
  | none => true
  | some c => !isWordPy c

/-- Case-insensitive `A` / `B`. -/
def ciA (c : Char) : Bool := c = 'A' || c = 'a'

/-- Case-insensitive `B`. -/
def ciB (c : Char) : Bool := c = 'B' || c = 'b'

/-- Numeric value of a digit run (`int(m.group(...))`). -/
def digitsVal (ds : List Char) : Nat :=
  ds.foldl (fun a c => a * 10 + digitValPy c) 0

/-- Match `\bAB\s*(\d{1,4})\b` (case-insensitive) at the current position
(suffix `l`, preceded by `prev`).  Returns the digit run, the length of
this core match, and the length including the optional trailing
`(?:\s*[/\-]\s*)?` of the TOC/global patterns (equal to the core length
when no `/` or `-` follows, since the optional group then matches empty).
A digit run longer than 4 can never match: `\d{1,4}` would have to stop
inside the run, where `\b` fails. -/
def abMatchHere (prev : Option Char) (l : List Char) : Option (List Char × Nat × Nat) :=
  if !boundaryOk prev then none
  else
    match l with
    | a :: b :: rest =>
      if ciA a && ciB b then
        let sp := rest.takeWhile isSpacePy
        let r1 := rest.drop sp.length
        let ds := r1.takeWhile isDigitPy
        if ds.length < 1 || ds.length > 4 then none
        else
          let r2 := r1.drop ds.length
          let wordAfter := match r2 with | [] => false | c :: _ => isWordPy c
          if wordAfter then none
          else
            let core := 2 + sp.length + ds.length
            let sp2 := r2.takeWhile isSpacePy
            match r2.drop sp2.length with
            | c :: r4 =>
              if c = '/' || c = '-' then
                some (ds, core, core + sp2.length + 1 + (r4.takeWhile isSpacePy).length)
              else some (ds, core, core)
            | [] => some (ds, core, core)
      else none
    | _ => none

/-- `re.search(r"\bAB\s*(\d{1,4})\b", ...)`: value of the first match. -/
def searchAB (prev : Option Char) (l : List Char) : Option Int :=
  match abMatchHere prev l with
  | some (ds, _, _) => some ((digitsVal ds : Nat) : Int)
  | none =>
    match l with
    | [] => none
    | c :: rest => searchAB (some c) rest

/-- Match `\b(\d{1,4})\s*/\s*(\d{1,4})\b` at the current position. -/
def fracMatchHere (prev : Option Char) (l : List Char) : Option (Nat × Nat) :=
  if !boundaryOk prev then none
  else
    let d1 := l.takeWhile isDigitPy
    if d1.length < 1 || d1.length > 4 then none
    else
      let r1 := l.drop d1.length
      let r2 := r1.drop (r1.takeWhile isSpacePy).length
      match r2 with
      | '/' :: r3 =>
        let r4 := r3.drop (r3.takeWhile isSpacePy).length
        let d2 := r4.takeWhile isDigitPy
        if d2.length < 1 || d2.length > 4 then none
        else
          match r4.drop d2.length with
          | c :: _ => if isWordPy c then none else some (digitsVal d1, digitsVal d2)
          | [] => some (digitsVal d1, digitsVal d2)
      | _ => none

/-- `re.search(r"\b(\d{1,4})\s*/\s*(\d{1,4})\b", ...)`: first match. -/
def searchFrac (prev : Option Char) (l : List Char) : Option (Nat × Nat) :=
  match fracMatchHere prev l with
  | some r => some r
  | none =>
    match l with
    | [] => none
    | c :: rest => searchFrac (some c) rest

/-- `re.search(r"\b(\d{1,4})\b", ...)`: first standalone 1–4 digit number
(the TOC lookahead pattern). -/
def searchNumToken (prev : Option Char) (l : List Char) : Option Nat :=
  let here :=
    if boundaryOk prev then
      let ds := l.takeWhile isDigitPy
      if 1 ≤ ds.length ∧ ds.length ≤ 4 then
        match l.drop ds.length with
        | [] => some (digitsVal ds)
        | c :: _ => if isWordPy c then none else some (digitsVal ds)
      else none
    else none
  match here with
  | some v => some v
  | none =>
    match l with
    | [] => none
    | c :: rest => searchNumToken (some c) rest

/-- `re.sub(r"\bAB\s*\d{1,4}\b", "", ...)`: delete every (non-overlapping)
match; scanning resumes after each match. -/
def subABAll (fuel : Nat) (prev : Option Char) (l : List Char) : List Char :=
  match fuel with
  | 0 => l
  | fuel + 1 =>
    match abMatchHere prev l with
    | some (_, core, _) => subABAll fuel l[core - 1]? (l.drop core)
    | none =>
      match l with
      | [] => []
      | c :: rest => c :: subABAll fuel (some c) rest

/-- `re.sub(r"\b\d{1,4}\s*/\s*\d{1,4}\b$", "", ...)`: strip one trailing
digit pair.  Anchored at the end, so the match (if any) is parsed from the
right: a full trailing digit run of length 1–4, spaces, `/`, spaces, a full
digit run of length 1–4 preceded by a non-word character (`\b`); the final
`\b` always holds at the end of the string after a digit. -/
def subTrailingFrac (l : List Char) : List Char :=
  let r := l.reverse
  let d2 := r.takeWhile isDigitPy
  if d2.length < 1 || d2.length > 4 then l
  else
    let r1 := r.drop d2.length
    let r2 := r1.drop (r1.takeWhile isSpacePy).length
    match r2 with
    | '/' :: r3 =>
      let r4 := r3.drop (r3.takeWhile isSpacePy).length
      let d1 := r4.takeWhile isDigitPy
      if d1.length < 1 || d1.length > 4 then l
      else
        match r4.drop d1.length with
        | [] => []
        | c :: _ => if isWordPy c then l else ((r4.drop d1.length).reverse)
    | _ => l

/-- `re.sub(r"\b\d{1,4}$", "", ...)`: strip one trailing bare 1–4 digit
number whose start is a word boundary. -/
def subTrailingNum (l : List Char) : List Char :=
  let k := (l.reverse.takeWhile isDigitPy).length
  if 1 ≤ k ∧ k ≤ 4 then
    let rest := l.take (l.length - k)
    match rest.getLast? with
    | some c => if isWordPy c then l else rest
    | none => rest
  else l

/-! ### Header parsing (`parse_ab_header`, `header_ab_on_page`) -/

/-- Result of `parse_ab_header`: the Python 4-tuple
`(id_int, name, curr, total)`. -/
structure ABHeader where
  ab_id : Option Int
  name : String
  curr : Option Int
  total : Option Int
deriving DecidableEq, Repr

/-- `parse_ab_header` (F42 workbook, lines 27–57): clean the text, extract
the first `AB n` id and the first `a/b` digit pair independently, and derive
the name by deleting all `AB n` tokens, then one trailing digit pair, then
one trailing bare number, stripping whitespace after each step. -/
def parse_ab_header (header_text : String) : ABHeader :=
  let txt := clean_header_text header_text
  if txt = "" then ⟨none, "", none, none⟩
  else
    let id_int := searchAB none txt.data
    let frac := searchFrac none txt.data
    let name1 := pyStrip (subABAll (txt.data.length + 1) none txt.data)
    let name2 := pyStrip (subTrailingFrac name1)
    let name3 := pyStrip (subTrailingNum name2)
    ⟨id_int, ⟨name3⟩, frac.map (fun x => (x.1 : Int)), frac.map (fun x => (x.2 : Int))⟩

/-- Line break characters recognised by Python `str.splitlines()`. -/
def isLineBreakPy (c : Char) : Bool :=
  c = '\n' || c = '\r' || c = '\x0b' || c = '\x0c' ||
  c = '\x1c' || c = '\x1d' || c = '\x1e' || c = '\x85'

/-- Python `str.splitlines()` worker (current line accumulated reversed). -/
def splitlinesGo (acc : List Char) : List Char → List (List Char)
  | [] => if acc.isEmpty then [] else [acc.reverse]
  | '\r' :: '\n' :: rest => acc.reverse :: splitlinesGo [] rest
  | c :: rest =>
    if isLineBreakPy c then acc.reverse :: splitlinesGo [] rest
    else splitlinesGo (c :: acc) rest

/-- Python `str.splitlines()` (common line break characters). -/
def splitlinesPy (l : List Char) : List (List Char) := splitlinesGo [] l

/-- `header_ab_on_page` (lines 88–112): search `AB n` in the cleaned header
band (first 12 lines, first 400 characters), falling back to the whole
cleaned page. -/
def header_ab_on_page (text : String) : Option Int :=
  if text = "" then none
  else
    let head := (List.intercalate ['\n'] ((splitlinesPy text.data).take 12)).take 400
    match searchAB none (clean_header_text ⟨head⟩).data with
    | some n => some n
    | none => searchAB none (clean_header_text text).data

/-! ### Last-page estimation (`determine_last_page`) -/

/-- Loop body of `determine_last_page` (lines 123–148): `fuel` counts the
remaining iterations of `range(0, max_scan)`; exhausting the range or
breaking out of bounds falls through to `min(start_page, total)`. -/
def dlpGo (pages : List String) (total start_page : Int) (current_id : Option Int)
    (offset : Nat) (fuel : Nat) : Int :=
  match fuel with
  | 0 => min start_page total
  | fuel + 1 =>
    let page_no := start_page + (offset : Int)
    if page_no < 1 ∨ page_no > total then min start_page total
    else
      let raw_pt := (pages.get? (page_no - 1).toNat).getD ""
      let pt := clean_header_text raw_pt
      let hdrStop :=
        match header_ab_on_page raw_pt, current_id with
        | some h, some cid => h != cid
        | _, _ => false
      if hdrStop then min (max start_page (page_no - 1)) total
      else
        match searchFrac none pt.data with
        | some cs =>
          let c := (cs.1 : Int)
          let s := (cs.2 : Int)
          if s ≥ c ∧ s ≤ total ∧ s - start_page < 500 then min s total
          else if 0 < s ∧ s ≤ 400 then min (max start_page (start_page + (s - c))) total
          else dlpGo pages total start_page current_id (offset + 1) fuel
        | none => dlpGo pages total start_page current_id (offset + 1) fuel

/-- `determine_last_page` (lines 114–150): scan forward from `start_page`
for at most `max_scan` pages (default: the remaining pages), stopping at a
foreign `AB` header or a `curr/total` digit pair; fall back to
`start_page` (clamped) otherwise. -/
def determine_last_page (pages : List String) (start_page : Int)
    (current_id : Option Int) (max_scan : Option Int) : Int :=
  if pages.isEmpty then start_page
  else
    let total := (pages.length : Int)
    let ms := match max_scan with
      | some m => m
      | none => total - start_page + 1
    dlpGo pages total start_page current_id 0 ms.toNat

/-! ### Entry locator (`_find_page_for_entry`) -/

/-- Python `needle in hay` on character lists. -/
def containsSub (hay needle : List Char) : Bool :=
  needle.isPrefixOf hay ||
    match hay with
    | [] => false
    | _ :: t => containsSub t needle

/-- First value produced by `f` over a list (a `for` loop with an early
`return`). -/
def firstSome {α β : Type} (l : List α) (f : α → Option β) : Option β :=
  match l with
  | [] => none
  | x :: xs =>
    match f x with
    | some b => some b
    | none => firstSome xs f

/-- Maximal runs of word characters (`re.findall(r"\w+", ...)`-style
splitting; the caller filters by length). -/
def wordRuns (l : List Char) : List (List Char) :=
  (l.foldr
    (fun c acc =>
      if isWordPy c then
        match acc with
        | [] => [[c]]
        | w :: ws => (c :: w) :: ws
      else [] :: acc)
    []).filter (fun w => !w.isEmpty)

/-- A page's cleaned, lowercased text (branch 2/3 of
`_find_page_for_entry`). -/
def pageLower (p : String) : List Char :=
  (clean_header_text p).data.map toLowerPy

/-- `_find_page_for_entry` (lines 161–204): locate a page by `AB` header id,
then by full-name substring, then by any name token of length ≥ 4;
1-based page number or `none`. -/
def find_page_for_entry (pages : List String) (id_int : Option Int)
    (name : Option String) : Option Int :=
  if pages.isEmpty then none
  else
    let byId : Option Int :=
      match id_int with
      | some i =>
        if i ≠ 0 then
          (pages.findIdx? (fun p => (parse_ab_header p).ab_id = some i)).map
            (fun ix => ((ix : Int) + 1))
        else none
      | none => none
    match byId with
    | some p => some p
    | none =>
      match name with
      | some nm =>
        if nm = "" then none
        else
          let name_norm := (collapseWS (pyStrip nm.data)).map toLowerPy
          if name_norm.isEmpty then none
          else
            match pages.findIdx? (fun p => containsSub (pageLower p) name_norm) with
            | some ix => some ((ix : Int) + 1)
            | none =>
              firstSome ((wordRuns name_norm).filter (fun t => 4 ≤ t.length))
                (fun tok =>
                  (pages.findIdx? (fun p => containsSub (pageLower p) tok)).map
                    (fun ix => ((ix : Int) + 1)))
      | none => none

/-! ### TOC extraction (`identify_working_sheets`, lines 220–256) -/

/-- Case-insensitive literal match of `marker` against the front of `l`
(IGNORECASE literal comparison via lowercasing). -/
def ciPrefix : List Char → List Char → Bool
  | [], _ => true
  | _ :: _, [] => false
  | m :: ms, c :: cs => toLowerPy m = toLowerPy c && ciPrefix ms cs

/-- The part of `(^|\n)\s*MARKER\s*(\n|$)` after the anchor: skip the
whitespace run, match the marker case-insensitively, then require the
trailing whitespace run to reach the end or to contain a newline. -/
def headingSuffix (marker : List Char) (l : List Char) : Bool :=
  let r1 := l.drop (l.takeWhile isSpacePy).length
  if ciPrefix marker r1 then
    let r2 := r1.drop marker.length
    let run := r2.takeWhile isSpacePy
    run.length = r2.length || run.contains '\n'
  else false

/-- Try `headingSuffix` after every `\n` of the text. -/
def headingScan (marker : List Char) : List Char → Bool
  | [] => false
  | c :: rest => (c = '\n' && headingSuffix marker rest) || headingScan marker rest

/-- `re.search(r"(^|\n)\s*MARKER\s*(\n|$)", txt, re.IGNORECASE) is not None`. -/
def headingFound (marker : List Char) (txt : String) : Bool :=
  headingSuffix marker txt.data || headingScan marker txt.data

/-- The TOC start heading. -/
def markerStart : List Char := "Übersicht Arbeitsblätter".data

/-- The TOC end heading. -/
def markerEnd : List Char := "Übersicht Informationsblätter".data

/-- Last index satisfying a predicate (the reverse `for` loop of the
start-heading fallback). -/
def lastIdx (pages : List String) (p : String → Bool) : Option Nat :=
  (pages.reverse.findIdx? p).map (fun j => pages.length - 1 - j)

/-- First index at or after `s` satisfying a predicate. -/
def findIdxFrom (pages : List String) (s : Nat) (p : String → Bool) : Option Nat :=
  ((pages.drop s).findIdx? p).map (fun j => j + s)

/-- TOC start page (lines 226–235): first page whose text matches the start
heading; else the last page containing it as a plain substring. -/
def toc_start_idx (pages : List String) : Option Nat :=
  match pages.findIdx? (fun p => !p.isEmpty && headingFound markerStart p) with
  | some i => some i
  | none => lastIdx pages (fun p => !p.isEmpty && containsSub p.data markerStart)

/-- TOC end page (lines 236–248): first page at or after `s` matching the
end heading, else containing it as a substring, else `min(s+8, len-1)`. -/
def toc_end_idx (pages : List String) (s : Nat) : Nat :=
  match findIdxFrom pages s (fun p => headingFound markerEnd p) with
  | some j => j
  | none =>
    match findIdxFrom pages s (fun p => !p.isEmpty && containsSub p.data markerEnd) with
    | some j => j
    | none => min (s + 8) (pages.length - 1)

/-- TOC text blob (lines 250–254): join the window with single spaces,
replace NBSP, collapse whitespace, trim; empty when no start heading. -/
def compute_toc_text (pages : List String) : String :=
  match toc_start_idx pages with
  | none => ""
  | some s =>
    let e := toc_end_idx pages s
    let raw := " ".intercalate ((pages.drop s).take (e - s + 1))
    ⟨collapseWS (raw.data.map (fun c => if c = '\xa0' then ' ' else c))⟩

/-! ### Robust TOC parsing (lines 258–292) -/

/-- `finditer` for `\bAB\s*(\d{1,4})\b(?:\s*[/\-]\s*)?`: non-overlapping
matches as (digit run, match start, match end); scanning resumes at each
match end. -/
def abFinditer (fuel : Nat) (prev : Option Char) (l : List Char) (pos : Nat) :
    List (List Char × Nat × Nat) :=
  match fuel with
  | 0 => []
  | fuel + 1 =>
    match abMatchHere prev l with
    | some (ds, _, send) =>
      (ds, pos, pos + send) :: abFinditer fuel l[send - 1]? (l.drop send) (pos + send)
    | none =>
      match l with
      | [] => []
      | c :: rest => abFinditer fuel (some c) rest (pos + 1)

/-- Does the suffix match the tail `[\s\-–—:]*(\d{1,4})\s*$` of the
trailing-number pattern?  (The separator class cannot contain digits and
whitespace cannot either, so no backtracking helps: the digit run must be
the full run, of length 1–4, followed only by whitespace.) -/
def trailSuffixMatch (l : List Char) : Option (List Char) :=
  let isTrailSep := fun c => isSpacePy c || c = '-' || c = '–' || c = '—' || c = ':'
  let r1 := l.drop (l.takeWhile isTrailSep).length
  let ds := r1.takeWhile isDigitPy
  if ds.length < 1 || ds.length > 4 then none
  else if (r1.drop ds.length).all isSpacePy then some ds
  else none

/-- `re.search(r"(?P<n>.*?)[\s\-–—:]*(?P<p>\d{1,4})\s*$", raw_name)`:
the lazy `.*?` makes the `n` group end at the first position whose suffix
matches the rest of the pattern; `.` cannot cross a newline, so the group
starts after the last newline before that position (the inputs here are
whitespace-collapsed and contain none). -/
def trailMatchGo (taken : List Char) (l : List Char) : Option (List Char × List Char) :=
  match trailSuffixMatch l with
  | some ds => some ((taken.takeWhile (fun c => c ≠ '\n')).reverse, ds)
  | none =>
    match l with
    | [] => none
    | c :: rest => trailMatchGo (c :: taken) rest

/-- See `trailMatchGo`; returns `(group n, group p)`. -/
def trailMatch (l : List Char) : Option (List Char × List Char) := trailMatchGo [] l

/-- The strip set `" \t\-–—:;,."` of the TOC pass. -/
def stripSetDot : List Char := " \t-–—:;,.".data

/-- The strip set `" \t\-–—:;,"` of the global-scan pass. -/
def stripSetNoDot : List Char := " \t-–—:;,".data

/-- One TOC candidate entry (loop body, lines 264–292): the raw name is the
stripped text up to the next `AB` match; a trailing number is split off it,
else the first standalone number in the next 250 characters is used. -/
def toc_entry (l : List Char) (ds : List Char) (mend : Nat) (endPos : Nat) :
    String × String × Option Int :=
  let raw_name0 := pyStrip ((l.drop mend).take (endPos - mend))
  let step1 :=
    match trailMatch raw_name0 with
    | some np =>
      let nc := pyStrip np.1
      ((if nc.isEmpty then raw_name0 else nc), some ((digitsVal np.2 : Nat) : Int))
    | none => (raw_name0, none)
  let page_num :=
    match step1.2 with
    | some p => some p
    | none => (searchNumToken none ((l.drop mend).take 250)).map (fun v => ((v : Nat) : Int))
  (⟨ds⟩, ⟨pyStripChars stripSetDot step1.1⟩, page_num)

/-- All TOC candidate entries from the matches of `ab_token_re`. -/
def toc_entries (l : List Char) : List (List Char × Nat × Nat) →
    List (String × String × Option Int)
  | [] => []
  | (ds, _, mend) :: rest =>
    let endPos := match rest with
      | (_, nstart, _) :: _ => nstart
      | [] => l.length
    toc_entry l ds mend endPos :: toc_entries l rest

/-- The `entries_found` list (lines 259–292): empty when the TOC blob is
empty. -/
def toc_parse (toc_text : String) : List (String × String × Option Int) :=
  if toc_text = "" then []
  else toc_entries toc_text.data (abFinditer (toc_text.data.length + 1) none toc_text.data 0)

/-- The page-fixup pass over TOC entries (lines 297–313): entries without a
page number are deferred to `_find_page_for_entry`; unresolved entries are
kept with `none`. -/
def fix_entries (pages : List String) (entries : List (String × String × Option Int)) :
    List (String × String × Option Int) :=
  entries.map (fun e =>
    match e.2.2 with
    | some p => (e.1, e.2.1, some p)
    | none =>
      let id_int := coerce_id_to_int (.vstr e.1)
      match find_page_for_entry pages (if id_int ≠ 0 then some id_int else none)
          (if e.2.1 ≠ "" then some e.2.1 else none) with
      | some f => (e.1, e.2.1, some f)
      | none => (e.1, e.2.1, none))

/-- `list(range(a, b + 1))` on ints. -/
def intRange (a b : Int) : List Int :=
  (List.range (b - a + 1).toNat).map (fun k => a + (k : Int))

/-- The TOC add loop (lines 319–333): resolve the page range with
`determine_last_page` when a truthy start page is known, then add under
`str(current_id or id_str)` with name `name or "AB <id_str>"`. -/
def toc_add_pass (pages : List String) (doc : PdfDocument)
    (entries : List (String × String × Option Int)) : PdfDocument :=
  entries.foldl
    (fun doc e =>
      let current_id := coerce_id_to_int (.vstr e.1)
      let pages_list : List Int :=
        match e.2.2 with
        | some sp =>
          if sp ≠ 0 then
            let last := determine_last_page pages sp (some current_id) none
            if sp ≤ last then intRange sp last else []
          else []
        | none => []
      add_working_sheet doc
        (.vstr (if current_id ≠ 0 then pyStrInt current_id else e.1))
        (if e.2.1 ≠ "" then e.2.1 else "AB " ++ e.1)
        (pages_list.map .vint))
    doc

/-! ### Global scan (lines 315–371) -/

/-- Continuation `(.+?)\s+(\d{1,4})\b` of the global pattern from a given
position: the lazy group grows one (non-newline) character at a time until
the rest matches; `\s+` must consume the whole space run (spaces are not
digits, so shrinking it never helps), and the digit run must be full and of
length 1–4 with a non-word character (or the end) after it.  Returns the
name group, the page digit run and the number of characters consumed. -/
def globalContGo (taken : List Char) (l : List Char) : Option (List Char × List Char × Nat) :=
  match l with
  | [] => none
  | c :: rest =>
    if c = '\n' then none
    else
      let name' := c :: taken
      let sp := rest.takeWhile isSpacePy
      let ok :=
        if sp.length = 0 then none
        else
          let r2 := rest.drop sp.length
          let ds := r2.takeWhile isDigitPy
          if ds.length < 1 || ds.length > 4 then none
          else
            match r2.drop ds.length with
            | c' :: _ => if isWordPy c' then none else some ds
            | [] => some ds
      match ok with
      | some ds => some (name'.reverse, ds, name'.length + sp.length + ds.length)
      | none => globalContGo name' rest

/-- `finditer` for the global pattern
`\bAB\s*(\d{1,4})\b(?:\s*[/\-]\s*)?(.+?)\s+(\d{1,4})\b`: at each `AB id`
match the continuation is tried after the greedy optional separator first
and, failing that, with the separator group matching empty (regex
backtracking order); scanning resumes after a full match.  Yields
`(id digits, raw group-2 text, group-3 value)`. -/
def globalFinditer (fuel : Nat) (prev : Option Char) (l : List Char) :
    List (String × String × Int) :=
  match fuel with
  | 0 => []
  | fuel + 1 =>
    let step :=
      match abMatchHere prev l with
      | some (ds, core, send) =>
        match globalContGo [] (l.drop send) with
        | some (nm, pds, used) => some (ds, nm, pds, send + used)
        | none =>
          if core < send then
            match globalContGo [] (l.drop core) with
            | some (nm, pds, used) => some (ds, nm, pds, core + used)
            | none => none
          else none
      | none => none
    match step with
    | some (ds, nm, pds, tot) =>
      (⟨ds⟩, ⟨nm⟩, ((digitsVal pds : Nat) : Int)) ::
        globalFinditer fuel l[tot - 1]? (l.drop tot)
    | none =>
      match l with
      | [] => []
      | c :: rest => globalFinditer fuel (some c) rest

/-- One global-scan candidate (loop body, lines 342–371): ids already in
`existing_ids` are skipped; otherwise the page range is resolved via
`determine_last_page` (truthy captured page) or `_find_page_for_entry`,
the entry is added under `str(id_int)`, and the id is remembered. -/
def global_scan_step (pages : List String) (st : PdfDocument × List Int)
    (cand : String × String × Int) : PdfDocument × List Int :=
  let id_int := coerce_id_to_int (.vstr cand.1)
  if id_int ∈ st.2 then st
  else
    let raw_name := pyStrip cand.2.1.data
    let name : String := ⟨pyStripChars stripSetNoDot raw_name⟩
    let start_page := cand.2.2
    let pages_list : List Int :=
      if start_page ≠ 0 then
        let last := determine_last_page pages start_page (some id_int) none
        if start_page ≤ last then intRange start_page last else []
      else
        match find_page_for_entry pages (if id_int ≠ 0 then some id_int else none)
            (if name ≠ "" then some name else none) with
        | some f => [f]
        | none => []
    (add_working_sheet st.1 (.vstr (pyStrInt id_int)) name (pages_list.map .vint),
     st.2 ++ [coerce_id_to_int (.vstr cand.1)])

/-- The global-scan pass (lines 335–371): `existing_ids` starts as the
model's id keys; every page's raw text is scanned with the global pattern
(an empty page yields no matches, making the `continue` guard moot). -/
def global_scan_pass (pages : List String) (doc : PdfDocument) : PdfDocument :=
  let cands := pages.flatMap (fun p => globalFinditer (p.data.length + 1) none p.data)
  (cands.foldl (global_scan_step pages) (doc, doc.working_sheets.map Prod.fst)).1

/-! ### Header-based pass (lines 373–473) -/

/-- The per-page label array (lines 375–392): `header_ab_on_page or 0`,
refined — when fewer than `max(2, total // 30)` labels are nonzero — by a
relaxed whole-page `parse_ab_header` scan on the unlabeled pages. -/
def make_header_map (pages : List String) : List Int :=
  let hm : List Int := pages.map (fun p => (header_ab_on_page p).getD 0)
  if (hm.filter (fun v => v ≠ 0)).length < max 2 (pages.length / 30) then
    (hm.zip pages).map (fun vp =>
      if vp.1 = (0 : Int) then
        match (parse_ab_header vp.2).ab_id with
        | some idv => if idv ≠ 0 then idv else (0 : Int)
        | none => (0 : Int)
      else vp.1)
  else hm

/-- The `while j < total and header_map[j] == cur` scan (lines 418–421):
first index at or after `i + 1` with a different label, else the length. -/
def contigEnd (hm : List Int) (i : Nat) (cur : Int) : Nat :=
  match (hm.drop (i + 1)).findIdx? (fun v => v ≠ cur) with
  | some k => i + 1 + k
  | none => hm.length

/-- Block-building loop (lines 395–425): group consecutive equal nonzero
labels; when the block's start page parses a truthy `curr/total` pair the
end page is computed arithmetically and the scan pointer jumps past it.
`fuel` bounds the loop (the pointer strictly increases each step). -/
def build_blocks_go (pages : List String) (hm : List Int) (total : Nat) (i : Nat)
    (fuel : Nat) : List (Int × Int × Int) :=
  match fuel with
  | 0 => []
  | fuel + 1 =>
    if i < total then
      let cur := (hm.get? i).getD 0
      if 0 < cur then
        let start : Int := (i : Int) + 1
        let hd := parse_ab_header ((pages.get? i).getD "")
        let ct :=
          match hd.curr, hd.total with
          | some c, some t => if c ≠ 0 ∧ t ≠ 0 then some (c, t) else none
          | _, _ => none
        match ct with
        | some ct' =>
          let ep0 := min (total : Int) (start + (ct'.2 - ct'.1))
          let end_page := if ep0 < start then start else ep0
          (cur, start, end_page) :: build_blocks_go pages hm total end_page.toNat fuel
        | none =>
          let j := contigEnd hm i cur
          (cur, start, (j : Int)) :: build_blocks_go pages hm total j fuel
      else build_blocks_go pages hm total (i + 1) fuel
    else []

/-- The detected header blocks `(id, start_page, end_page)` (1-based,
inclusive). -/
def build_blocks (pages : List String) (hm : List Int) : List (Int × Int × Int) :=
  build_blocks_go pages hm pages.length 0 (pages.length + 1)

/-- `toc_name_by_id` (lines 430–435): later entries overwrite earlier ones
for the same coerced id. -/
def toc_name_by_id (entries : List (String × String × Option Int)) : List (Int × String) :=
  entries.foldl (fun d e => dictSet d (coerce_id_to_int (.vstr e.1)) e.2.1) []

/-- `existing_pages_for_id` (lines 152–159): all pages stored under an id,
across its names (used only for membership and non-emptiness). -/
def existing_pages_for_id (doc : PdfDocument) (id_int : Int) : List Int :=
  ((dictGet doc.working_sheets id_int).getD []).flatMap (fun np => np.2)

/-- Match `\bAB\s*<id digits>\s*[/\-]\s*(.+?)(?:\n|$)` at the current
position: the id digits are a literal here (no trailing `\b` after them in
the source pattern), and the lazy group runs to the first newline or the
end and must be non-empty. -/
def srchNameHere (idds : List Char) (prev : Option Char) (l : List Char) :
    Option (List Char) :=
  if !boundaryOk prev then none
  else
    match l with
    | a :: b :: rest =>
      if ciA a && ciB b then
        let r1 := rest.drop (rest.takeWhile isSpacePy).length
        if idds.isPrefixOf r1 then
          let r2 := r1.drop idds.length
          match r2.drop ((r2.takeWhile isSpacePy).length) with
          | c :: r3 =>
            if c = '/' || c = '-' then
              let r4 := r3.drop (r3.takeWhile isSpacePy).length
              let nm := r4.takeWhile (fun c' => c' ≠ '\n')
              if nm.isEmpty then none else some nm
            else none
          | [] => none
        else none
      else none
    | _ => none

/-- `srch_re.search(cleaned)`: first match of `srchNameHere`. -/
def srchName (idds : List Char) (prev : Option Char) (l : List Char) : Option (List Char) :=
  match srchNameHere idds prev l with
  | some r => some r
  | none =>
    match l with
    | [] => none
    | c :: rest => srchName idds (some c) rest

/-- One block of the header pass (lines 437–473): skip non-positive ids,
empty ranges, and blocks whose pages are all already stored for the id
(when any are); resolve the display name TOC name → existing model name →
localized `AB <id> / <name>` search in a window around the block →
placeholder `AB <id>`; then add under `str(id_int)`. -/
def header_pass_step (pages : List String)
    (entries : List (String × String × Option Int)) (doc : PdfDocument)
    (blk : Int × Int × Int) : PdfDocument :=
  let id_int := blk.1
  let start_page := blk.2.1
  let end_page := blk.2.2
  if id_int ≤ 0 then doc
  else if end_page < start_page then doc
  else
    let block_pages := intRange start_page end_page
    let already := existing_pages_for_id doc id_int
    if (block_pages.all (fun p => already.contains p)) && !already.isEmpty then doc
    else
      let n1 : String := (dictGet (toc_name_by_id entries) id_int).getD ""
      let n2 : String :=
        if n1 = "" then
          match (dictGet doc.working_sheets id_int).getD [] with
          | np :: _ => np.1
          | [] => ""
        else n1
      let n3 : String :=
        if n2 = "" then
          let pgs := intRange (max 1 (start_page - 1)) (min (pages.length : Int) (end_page + 2) - 1)
          let found := firstSome pgs (fun pg =>
            let cleaned := clean_header_text ((pages.get? (pg - 1).toNat).getD "")
            srchName (pyStrInt id_int).data none cleaned.data)
          match found with
          | some nm =>
            let fn := pyStrip nm
            if fn.isEmpty then "" else ⟨pyStripChars stripSetDot fn⟩
          | none => ""
        else n2
      let name := if n3 = "" then "AB " ++ pyStrInt id_int else n3
      add_working_sheet doc (.vstr (pyStrInt id_int)) name (block_pages.map .vint)

/-- `identify_working_sheets` (lines 206–477): the empty-pages guard, then
the TOC pass, the global scan and the header-block pass in order, all
writing into the one document model. -/
def identify_working_sheets (pages : List String) (doc : PdfDocument) : PdfDocument :=
  if pages.isEmpty then doc
  else
    let entries := fix_entries pages (toc_parse (compute_toc_text pages))
    let doc1 := toc_add_pass pages doc entries
    let doc2 := global_scan_pass pages doc1
    let blocks := build_blocks pages (make_header_map pages)
    blocks.foldl (header_pass_step pages entries) doc2

/-! ## Basic lemmas about the embedded operations -/

theorem insertSD_mem {x a : Int} {l : List Int} :
    a ∈ insertSD x l ↔ a = x ∨ a ∈ l := by
  induction l with
  | nil => simp [insertSD]
  | cons y ys ih =>
    simp only [insertSD]
    split_ifs with h1 h2
    · simp
    · subst h2; simp [or_comm]
    · simp [ih]; tauto

theorem insertSD_sorted {x : Int} {l : List Int} (h : l.Sorted (· < ·)) :
    (insertSD x l).Sorted (· < ·) := by
  induction l with
  | nil => simp [insertSD]
  | cons y ys ih =>
    rw [List.sorted_cons] at h
    simp only [insertSD]
    split_ifs with h1 h2
    · rw [List.sorted_cons]
      refine ⟨?_, by rw [List.sorted_cons]; exact h⟩
      intro b hb
      rcases List.mem_cons.mp hb with rfl | hb
      · exact h1
      · exact lt_trans h1 (h.1 b hb)
    · rw [List.sorted_cons]; exact h
    · rw [List.sorted_cons]
      refine ⟨?_, ih h.2⟩
      intro b hb
      rcases insertSD_mem.mp hb with rfl | hb
      · omega
      · exact h.1 b hb

theorem sortedDedup_cons (x : Int) (l : List Int) :
    sortedDedup (x :: l) = insertSD x (sortedDedup l) := rfl

theorem sortedDedup_sorted (l : List Int) : (sortedDedup l).Sorted (· < ·) := by
  induction l with
  | nil => simp [sortedDedup, List.Sorted]
  | cons x xs ih => rw [sortedDedup_cons]; exact insertSD_sorted ih

theorem mem_sortedDedup {a : Int} {l : List Int} : a ∈ sortedDedup l ↔ a ∈ l := by
  induction l with
  | nil => simp [sortedDedup]
  | cons x xs ih => rw [sortedDedup_cons, insertSD_mem, ih]; simp

/-- Two strictly ascending integer lists with the same members are equal. -/
theorem sorted_mem_ext {l m : List Int} (hl : l.Sorted (· < ·))
    (hm : m.Sorted (· < ·)) (h : ∀ a, a ∈ l ↔ a ∈ m) : l = m := by
  induction l generalizing m with
  | nil =>
    cases m with
    | nil => rfl
    | cons b bs => exact absurd ((h b).mpr (by simp)) (by simp)
  | cons a as ih =>
    cases m with
    | nil => exact absurd ((h a).mp (by simp)) (by simp)
    | cons b bs =>
      rw [List.sorted_cons] at hl hm
      have hab : a = b := by
        rcases List.mem_cons.mp ((h a).mp (List.mem_cons_self a as)) with h1 | ha
        · exact h1
        · rcases List.mem_cons.mp ((h b).mpr (List.mem_cons_self b bs)) with h1 | hb
          · exact h1.symm
          · have := hl.1 b hb
            have := hm.1 a ha
            omega
      subst hab
      have htail : ∀ x, x ∈ as ↔ x ∈ bs := by
        intro x
        constructor
        · intro hx
          rcases List.mem_cons.mp ((h x).mp (List.mem_cons_of_mem a hx)) with h1 | hx'
          · subst h1; exact absurd (hl.1 x hx) (lt_irrefl x)
          · exact hx'
        · intro hx
          rcases List.mem_cons.mp ((h x).mpr (List.mem_cons_of_mem a hx)) with h1 | hx'
          · subst h1; exact absurd (hm.1 x hx) (lt_irrefl x)
          · exact hx'
      rw [ih hl.2 hm.2 htail]

theorem sortedDedup_eq_self {l : List Int} (h : l.Sorted (· < ·)) :
    sortedDedup l = l :=
  sorted_mem_ext (sortedDedup_sorted l) h (fun _ => mem_sortedDedup)

theorem dictGet_dictSet_self {α β : Type} [DecidableEq α] (d : List (α × β))
    (k : α) (v : β) : dictGet (dictSet d k v) k = some v := by
  induction d with
  | nil => simp [dictGet, dictSet]
  | cons kv rest ih =>
    obtain ⟨k', v'⟩ := kv
    by_cases h : k' = k <;> simp [dictGet, dictSet, h, ih]

theorem dictGet_dictSet_ne {α β : Type} [DecidableEq α] (d : List (α × β))
    (k k' : α) (v : β) (h : k' ≠ k) :
    dictGet (dictSet d k v) k' = dictGet d k' := by
  have hne : k ≠ k' := fun hh => h hh.symm
  induction d with
  | nil => simp [dictGet, dictSet, hne]
  | cons kv rest ih =>
    obtain ⟨k0, v0⟩ := kv
    by_cases h0 : k0 = k
    · subst h0
      simp [dictGet, dictSet, hne]
    · simp [dictGet, dictSet, h0, ih]

theorem mem_dictSet {α β : Type} [DecidableEq α] {d : List (α × β)}
    {k : α} {v : β} {kv : α × β} (h : kv ∈ dictSet d k v) :
    kv = (k, v) ∨ kv ∈ d := by
  induction d with
  | nil => simpa [dictSet] using h
  | cons kv0 rest ih =>
    obtain ⟨k0, v0⟩ := kv0
    by_cases h0 : k0 = k
    · subst h0
      rcases List.mem_cons.mp (by simpa [dictSet] using h) with rfl | hh
      · exact Or.inl rfl
      · exact Or.inr (List.mem_cons_of_mem _ hh)
    · rcases List.mem_cons.mp (by simpa [dictSet, h0] using h) with rfl | hh
      · exact Or.inr (List.mem_cons_self _ _)
      · rcases ih hh with h1 | h1
        · exact Or.inl h1
        · exact Or.inr (List.mem_cons_of_mem _ h1)

theorem dictGet_mem {α β : Type} [DecidableEq α] {d : List (α × β)} {k : α}
    {v : β} (h : dictGet d k = some v) : (k, v) ∈ d := by
  induction d with
  | nil => simp [dictGet] at h
  | cons kv rest ih =>
    obtain ⟨k0, v0⟩ := kv
    by_cases h0 : k0 = k
    · subst h0
      simp [dictGet] at h
      simp [h]
    · simp [dictGet, h0] at h
      exact List.mem_cons_of_mem _ (ih h)

/-! ## C1 — merge semantics of `add_working_sheet` -/

/-- **C1.** For every document model state (satisfying the model's own
invariant: the `(id, name)` entry is present with a non-empty name and a
strictly ascending page list), `add_working_sheet` replaces the stored page
list with the strictly ascending, duplicate-free union of the old pages and
the normalized new pages: its members are exactly the old ones plus the new
ones (so no stored page is lost and no duplicate is introduced), and when
every normalized new page is already stored, the stored list is unchanged
(idempotence). -/
theorem add_working_sheet_merges (doc : PdfDocument) (idv : PyVal)
    (name : String) (pages : List PyVal) (L : List Int)
    (hname : name ≠ "")
    (hL : dictGet ((dictGet doc.working_sheets (coerce_id_to_int idv)).getD []) name = some L)
    (hsorted : L.Sorted (· < ·)) :
    dictGet ((dictGet (add_working_sheet doc idv name pages).working_sheets
        (coerce_id_to_int idv)).getD []) name
      = some (sortedDedup (L ++ normalize_pages pages))
    ∧ (sortedDedup (L ++ normalize_pages pages)).Sorted (· < ·)
    ∧ (∀ p, p ∈ sortedDedup (L ++ normalize_pages pages) ↔
        p ∈ L ∨ p ∈ normalize_pages pages)
    ∧ ((∀ p ∈ normalize_pages pages, p ∈ L) →
        sortedDedup (L ++ normalize_pages pages) = L) := by
  refine ⟨?_, sortedDedup_sorted _, ?_, ?_⟩
  · simp only [add_working_sheet]
    rw [if_neg hname]
    simp only [hL]
    rw [dictGet_dictSet_self]
    simp only [Option.getD_some]
    rw [dictGet_dictSet_self]
  · intro p
    rw [mem_sortedDedup, List.mem_append]
  · intro hsub
    refine sorted_mem_ext (sortedDedup_sorted _) hsorted ?_
    intro a
    rw [mem_sortedDedup, List.mem_append]
    constructor
    · rintro (h | h)
      · exact h
      · exact hsub a h
    · exact Or.inl

/-- Witness for C1 at a concrete state: id 5 holds `"N" ↦ [1, 3]`, and
re-adding pages `[3, 2]` yields `[1, 2, 3]`. -/
theorem add_working_sheet_merges_witness :
    (("N" : String) ≠ ""
      ∧ dictGet ((dictGet ([(5, [("N", [1, 3])])] :
          List (Int × List (String × List Int))) (coerce_id_to_int (.vstr "5"))).getD [])
          "N" = some [1, 3]
      ∧ ([1, 3] : List Int).Sorted (· < ·))
    ∧ (dictGet ((dictGet (add_working_sheet ⟨"f", "p", [(5, [("N", [1, 3])])]⟩
          (.vstr "5") "N" [.vint 3, .vint 2]).working_sheets
          (coerce_id_to_int (.vstr "5"))).getD []) "N"
        = some (sortedDedup ([1, 3] ++ normalize_pages [.vint 3, .vint 2]))
      ∧ (sortedDedup ([1, 3] ++ normalize_pages [.vint 3, .vint 2])).Sorted (· < ·)
      ∧ (∀ p, p ∈ sortedDedup ([1, 3] ++ normalize_pages [.vint 3, .vint 2]) ↔
          p ∈ ([1, 3] : List Int) ∨ p ∈ normalize_pages [.vint 3, .vint 2])
      ∧ ((∀ p ∈ normalize_pages [.vint 3, .vint 2], p ∈ ([1, 3] : List Int)) →
          sortedDedup ([1, 3] ++ normalize_pages [.vint 3, .vint 2]) = [1, 3])) :=
  ⟨⟨by decide, by decide, by decide⟩,
    add_working_sheet_merges ⟨"f", "p", [(5, [("N", [1, 3])])]⟩ (.vstr "5") "N"
      [.vint 3, .vint 2] [1, 3] (by decide) (by decide) (by decide)⟩

/-! ## C2 — model invariants under arbitrary `add_working_sheet` sequences -/

/-- A sequence of `add_working_sheet` calls `(id, name, pages)` applied to a
document. -/
def applyAdds (doc : PdfDocument) (calls : List (PyVal × String × List PyVal)) :
    PdfDocument :=
  calls.foldl (fun d c => add_working_sheet d c.1 c.2.1 c.2.2) doc

/-- The page-list invariant: strictly ascending, all pages ≥ 1. -/
def PagesOK (L : List Int) : Prop := L.Sorted (· < ·) ∧ ∀ p ∈ L, 1 ≤ p

/-- The model invariant on `working_sheets`: every stored page list is
strictly ascending with pages ≥ 1. -/
def WSInv (ws : List (Int × List (String × List Int))) : Prop :=
  ∀ kb ∈ ws, ∀ np ∈ kb.2, PagesOK np.2

theorem normalize_pages_ok (pages : List PyVal) : PagesOK (normalize_pages pages) := by
  constructor
  · exact sortedDedup_sorted _
  · intro p hp
    rw [normalize_pages, mem_sortedDedup] at hp
    have := (List.mem_filter.mp hp).2
    simp only [decide_eq_true_eq] at this
    omega

theorem sortedDedup_append_ok {L M : List Int} (hL : PagesOK L) (hM : PagesOK M) :
    PagesOK (sortedDedup (L ++ M)) := by
  constructor
  · exact sortedDedup_sorted _
  · intro p hp
    rw [mem_sortedDedup, List.mem_append] at hp
    rcases hp with h | h
    · exact hL.2 p h
    · exact hM.2 p h

theorem bucket_ok {ws : List (Int × List (String × List Int))} (hinv : WSInv ws)
    (k : Int) : ∀ np ∈ (dictGet ws k).getD [], PagesOK np.2 := by
  intro np hnp
  cases h : dictGet ws k with
  | none => rw [h] at hnp; simp at hnp
  | some b =>
    rw [h] at hnp
    exact hinv (k, b) (dictGet_mem h) np hnp

theorem add_working_sheet_inv {doc : PdfDocument} (idv : PyVal) (name : String)
    (pages : List PyVal) (hinv : WSInv doc.working_sheets) :
    WSInv (add_working_sheet doc idv name pages).working_sheets := by
  by_cases hn : name = ""
  · simpa [add_working_sheet, hn] using hinv
  · simp only [add_working_sheet, if_neg hn]
    intro kb hkb np hnp
    rcases mem_dictSet hkb with h | h
    · subst h
      simp only at hnp
      cases hex : dictGet ((dictGet doc.working_sheets (coerce_id_to_int idv)).getD []) name with
      | some existing =>
        rw [hex] at hnp
        rcases mem_dictSet hnp with h1 | h1
        · subst h1
          exact sortedDedup_append_ok
            (bucket_ok hinv (coerce_id_to_int idv) (name, existing) (dictGet_mem hex))
            (normalize_pages_ok pages)
        · exact bucket_ok hinv (coerce_id_to_int idv) np h1
      | none =>
        rw [hex] at hnp
        rcases mem_dictSet hnp with h1 | h1
        · subst h1
          exact normalize_pages_ok pages
        · exact bucket_ok hinv (coerce_id_to_int idv) np h1
    · exact hinv kb h np hnp

theorem add_working_sheet_keys {doc : PdfDocument} (idv : PyVal) (name : String)
    (pages : List PyVal) {kb : Int × List (String × List Int)}
    (h : kb ∈ (add_working_sheet doc idv name pages).working_sheets) :
    kb.1 = coerce_id_to_int idv ∨ kb ∈ doc.working_sheets := by
  by_cases hn : name = ""
  · simp [add_working_sheet, hn] at h
    exact Or.inr h
  · simp only [add_working_sheet, if_neg hn] at h
    rcases mem_dictSet h with h1 | h1
    · subst h1; exact Or.inl rfl
    · exact Or.inr h1

theorem applyAdds_inv (calls : List (PyVal × String × List PyVal))
    {doc : PdfDocument} (hinv : WSInv doc.working_sheets) :
    WSInv (applyAdds doc calls).working_sheets := by
  induction calls generalizing doc with
  | nil => exact hinv
  | cons c cs ih => exact ih (add_working_sheet_inv c.1 c.2.1 c.2.2 hinv)

theorem applyAdds_keys (calls : List (PyVal × String × List PyVal))
    {doc : PdfDocument} (hdoc : ∀ kb ∈ doc.working_sheets, 0 ≤ kb.1)
    (hcalls : ∀ c ∈ calls, 0 ≤ coerce_id_to_int c.1) :
    ∀ kb ∈ (applyAdds doc calls).working_sheets, 0 ≤ kb.1 := by
  induction calls generalizing doc with
  | nil => exact hdoc
  | cons c cs ih =>
    refine ih ?_ (fun c' hc' => hcalls c' (List.mem_cons_of_mem _ hc'))
    intro kb hkb
    rcases add_working_sheet_keys c.1 c.2.1 c.2.2 hkb with h | h
    · rw [h]; exact hcalls c (List.mem_cons_self _ _)
    · exact hdoc kb h

/-- **C2, counterexample.** The claim as stated fails for arbitrary id
inputs: `add_working_sheet(-1, "x", [])` on the empty model stores the
bucket under the negative key `-1`. -/
theorem working_sheets_key_counterexample :
    ¬ (∀ kb ∈ (applyAdds ⟨"", "", []⟩ [(.vint (-1), "x", [])]).working_sheets,
        0 ≤ kb.1) := by
  decide

/-- **C2, amended.** After every sequence of `add_working_sheet` calls on a
freshly created model, every stored page list is strictly ascending with no
duplicates and contains only pages ≥ 1; and every top-level key is ≥ 0
provided each call's id input coerces to a non-negative integer (a negative
int, or a string with a leading minus sign, is stored under its negative
value). -/
theorem working_sheets_invariant (fn fp : String)
    (calls : List (PyVal × String × List PyVal)) :
    (∀ kb ∈ (applyAdds ⟨fn, fp, []⟩ calls).working_sheets, ∀ np ∈ kb.2,
        np.2.Sorted (· < ·) ∧ ∀ p ∈ np.2, 1 ≤ p)
    ∧ ((∀ c ∈ calls, 0 ≤ coerce_id_to_int c.1) →
        ∀ kb ∈ (applyAdds ⟨fn, fp, []⟩ calls).working_sheets, 0 ≤ kb.1) := by
  constructor
  · intro kb hkb np hnp
    exact applyAdds_inv calls (by intro kb h; simp at h) kb hkb np hnp
  · intro hcalls
    exact applyAdds_keys calls (by intro kb h; simp at h) hcalls

/-- Witness for C2 at a concrete call sequence with out-of-order,
duplicated pages and a digit-string id. -/
theorem working_sheets_invariant_witness :
    (∀ kb ∈ (applyAdds ⟨"f", "p", []⟩
        [(.vstr "5", "N", [.vint 3, .vint 1, .vint 3]), (.vstr "5", "N", [.vint 2])]).working_sheets,
      ∀ np ∈ kb.2, np.2.Sorted (· < ·) ∧ ∀ p ∈ np.2, 1 ≤ p)
    ∧ (∀ kb ∈ (applyAdds ⟨"f", "p", []⟩
        [(.vstr "5", "N", [.vint 3, .vint 1, .vint 3]), (.vstr "5", "N", [.vint 2])]).working_sheets,
      0 ≤ kb.1) :=
  ⟨(working_sheets_invariant "f" "p" _).1,
    (working_sheets_invariant "f" "p" _).2 (by decide)⟩

/-! ## C3 — bounds of `determine_last_page` -/

theorem min_bounds {x total : Int} (hx : 0 ≤ x) (ht : 0 ≤ total) :
    0 ≤ min x total ∧ min x total ≤ total :=
  ⟨le_min hx ht, min_le_right _ _⟩

theorem dlpGo_bounds (pages : List String) (total start : Int) (cid : Option Int)
    (fuel : Nat) (offset : Nat) (h1 : 1 ≤ start) (h2 : start ≤ total) :
    0 ≤ dlpGo pages total start cid offset fuel ∧
      dlpGo pages total start cid offset fuel ≤ total := by
  induction fuel generalizing offset with
  | zero => exact min_bounds (by omega) (by omega)
  | succ fuel ih =>
    simp only [dlpGo]
    split
    · exact min_bounds (by omega) (by omega)
    · split
      · exact min_bounds (le_trans (by omega) (le_max_left _ _)) (by omega)
      · split
        · rename_i cs _
          have hs : 0 ≤ (cs.2 : Int) := Int.natCast_nonneg _
          split
          · exact min_bounds hs (by omega)
          · split
            · exact min_bounds (le_trans (by omega) (le_max_left _ _)) (by omega)
            · exact ih (offset + 1)
        · exact ih (offset + 1)

/-- **C3, counterexample.** The claim as stated fails: on the three-page
document whose third page reads `"1/2"`, scanning from `start_page = 3`
hits the absolute end-page interpretation of the digit pair (`2 ≥ 1`,
`2 ≤ 3`, `2 − 3 < 500`) and returns page 2, which is below `start_page`,
hence outside `[start_page, document_length] = [3, 3]`. -/
theorem determine_last_page_counterexample :
    determine_last_page ["", "", "1/2"] 3 none none = 2 ∧
      ¬(3 ≤ determine_last_page ["", "", "1/2"] 3 none none ∧
        determine_last_page ["", "", "1/2"] 3 none none ≤ 3) := by
  decide

/-- **C3, amended.** Whenever `1 ≤ start_page ≤ document_length`,
`determine_last_page` returns a page within `[0, document_length]` (the
absolute end-page interpretation can return a digit-pair value below
`start_page`, and `"0/0"` on a page can return 0, so the lower bound is 0
rather than `start_page`; for `start_page` outside `[1, document_length]`
the result is clamped to `document_length`, or equals `start_page` on an
empty document). -/
theorem determine_last_page_bounds (pages : List String) (start_page : Int)
    (current_id : Option Int) (max_scan : Option Int)
    (h1 : 1 ≤ start_page) (h2 : start_page ≤ (pages.length : Int)) :
    0 ≤ determine_last_page pages start_page current_id max_scan ∧
      determine_last_page pages start_page current_id max_scan ≤ (pages.length : Int) := by
  have hne : pages.isEmpty = false := by
    cases pages with
    | nil => simp at h2; omega
    | cons a l => rfl
  simp only [determine_last_page, hne, Bool.false_eq_true, if_false]
  exact dlpGo_bounds pages _ start_page current_id _ 0 h1 h2

/-- Witness for the amended C3 on a one-page document. -/
theorem determine_last_page_bounds_witness :
    ((1 : Int) ≤ 1 ∧ (1 : Int) ≤ ((["x"] : List String).length : Int))
    ∧ (0 ≤ determine_last_page ["x"] 1 none none ∧
        determine_last_page ["x"] 1 none none ≤ ((["x"] : List String).length : Int)) :=
  ⟨⟨by decide, by decide⟩,
    determine_last_page_bounds ["x"] 1 none none (by decide) (by decide)⟩

/-! ## C4 — header parsing scenario -/

/-- **C4, counterexample.** On `"AB 22 / Zwangsgedanken  1/2"` the parser
does not return the name `"Zwangsgedanken"`: the `/` separator between the
`AB 22` token and the name survives, because the name derivation only
deletes the `AB n` token and the trailing digit pair and strips
*whitespace*, never separator characters. -/
theorem parse_ab_header_counterexample :
    parse_ab_header "AB 22 / Zwangsgedanken  1/2" ≠
      ⟨some 22, "Zwangsgedanken", some 1, some 2⟩ := by
  decide

/-- **C4, amended.** On `"AB 22 / Zwangsgedanken  1/2"` the parser returns
id 22, current 1, total 2, and the name `"/ Zwangsgedanken"` — the `AB 22`
token and the trailing `1/2` are removed and whitespace is trimmed, but the
`/` separator after the id token is retained. -/
theorem parse_ab_header_scenario :
    parse_ab_header "AB 22 / Zwangsgedanken  1/2" =
      ⟨some 22, "/ Zwangsgedanken", some 1, some 2⟩ := by
  decide

/-! ## C5 — TOC parsing scenario -/

/-- **C5.** On the normalized blob
`"AB 5 Angstskala 12 AB 6 Vermeidungsliste 15"` the TOC parsing step
produces exactly the two candidate entries (id 5, "Angstskala", page 12)
and (id 6, "Vermeidungsliste", page 15). -/
theorem toc_parse_scenario :
    toc_parse "AB 5 Angstskala 12 AB 6 Vermeidungsliste 15" =
      [("5", "Angstskala", some 12), ("6", "Vermeidungsliste", some 15)] := by
  decide

/-! ## C6 — header block builder scenario -/

/-- **C6.** For any 10-page document whose per-page header labels are id 7
on pages 3–5 and none elsewhere, and whose page-3 header parses no
`current/total` digit pair, the block builder produces exactly the single
block (id 7, start page 3, end page 5). -/
theorem header_blocks_scenario (p0 p1 p2 p3 p4 p5 p6 p7 p8 p9 : String)
    (h0 : header_ab_on_page p0 = none) (h1 : header_ab_on_page p1 = none)
    (h2 : header_ab_on_page p2 = some 7) (h3 : header_ab_on_page p3 = some 7)
    (h4 : header_ab_on_page p4 = some 7) (h5 : header_ab_on_page p5 = none)
    (h6 : header_ab_on_page p6 = none) (h7 : header_ab_on_page p7 = none)
    (h8 : header_ab_on_page p8 = none) (h9 : header_ab_on_page p9 = none)
    (hc : (parse_ab_header p2).curr = none ∧ (parse_ab_header p2).total = none) :
    build_blocks [p0, p1, p2, p3, p4, p5, p6, p7, p8, p9]
      (make_header_map [p0, p1, p2, p3, p4, p5, p6, p7, p8, p9]) = [(7, 3, 5)] := by
  have hm : make_header_map [p0, p1, p2, p3, p4, p5, p6, p7, p8, p9]
      = [0, 0, 7, 7, 7, 0, 0, 0, 0, 0] := by
    simp [make_header_map, h0, h1, h2, h3, h4, h5, h6, h7, h8, h9]
  rw [hm]
  simp [build_blocks, build_blocks_go, contigEnd, hc.1, List.findIdx?]

/-- Witness for C6: pages 3–5 read `"AB 7 Skala"`, the others are empty. -/
theorem header_blocks_scenario_witness :
    (header_ab_on_page "" = none ∧ header_ab_on_page "AB 7 Skala" = some 7
      ∧ (parse_ab_header "AB 7 Skala").curr = none
      ∧ (parse_ab_header "AB 7 Skala").total = none)
    ∧ build_blocks ["", "", "AB 7 Skala", "AB 7 Skala", "AB 7 Skala", "", "", "", "", ""]
        (make_header_map
          ["", "", "AB 7 Skala", "AB 7 Skala", "AB 7 Skala", "", "", "", "", ""])
      = [(7, 3, 5)] :=
  ⟨⟨by decide, by decide, by decide, by decide⟩,
    header_blocks_scenario "" "" "AB 7 Skala" "AB 7 Skala" "AB 7 Skala" "" "" "" "" ""
      (by decide) (by decide) (by decide) (by decide) (by decide) (by decide)
      (by decide) (by decide) (by decide) (by decide) ⟨by decide, by decide⟩⟩

/-! ## C7 — the global scan never touches existing id buckets

The pass re-enters each id through `str(id_int)`, so the key fact is the
decimal round trip `_coerce_id_to_int(str(n)) = n`. -/

theorem digitVal_digitChar : ∀ d < 10, digitValPy (digitCharPy d) = d := by decide

theorem digitChar_isDigit : ∀ d < 10, isDigitPy (digitCharPy d) = true := by decide

theorem natPrint_ne_nil (m : Nat) : natPrint m ≠ [] := by
  rw [natPrint]
  split
  · simp
  · simp

theorem natPrint_digits (m : Nat) : ∀ c ∈ natPrint m, isDigitPy c = true := by
  induction m using Nat.strong_induction_on with
  | _ m ih =>
    rw [natPrint]
    split
    · rename_i hlt
      intro c hc
      simp only [List.mem_singleton] at hc
      subst hc
      exact digitChar_isDigit m hlt
    · rename_i hge
      intro c hc
      rcases List.mem_append.mp hc with h | h
      · exact ih (m / 10) (Nat.div_lt_self (by omega) (by omega)) c h
      · simp only [List.mem_singleton] at h
        subst h
        exact digitChar_isDigit (m % 10) (Nat.mod_lt _ (by omega))

theorem natPrint_foldl (m : Nat) (a : Nat) :
    (natPrint m).foldl (fun x c => x * 10 + digitValPy c) a
      = a * 10 ^ (natPrint m).length + m := by
  induction m using Nat.strong_induction_on generalizing a with
  | _ m ih =>
    rw [natPrint]
    split
    · rename_i hlt
      simp [digitVal_digitChar m hlt]
    · rename_i hge
      rw [List.foldl_append, List.length_append]
      rw [ih (m / 10) (Nat.div_lt_self (by omega) (by omega)) a]
      simp only [List.foldl_cons, List.foldl_nil, List.length_singleton]
      rw [digitVal_digitChar (m % 10) (Nat.mod_lt _ (by omega))]
      rw [pow_succ]
      have := Nat.div_add_mod m 10
      ring_nf
      omega

theorem parseNat_natPrint (m : Nat) : parseNatDigits (natPrint m) = some m := by
  unfold parseNatDigits
  rw [if_neg (by simp [natPrint_ne_nil m])]
  rw [if_pos (List.all_eq_true.mpr (fun c hc => natPrint_digits m c hc))]
  rw [natPrint_foldl m 0]
  simp

theorem pyParseInt_pyStrInt (n : Int) : pyParseIntChars (pyStrInt n).data = some n := by
  cases n with
  | ofNat m =>
    show pyParseIntChars (natPrint m) = some (Int.ofNat m)
    cases hnp : natPrint m with
    | nil => exact absurd hnp (natPrint_ne_nil m)
    | cons c rest =>
      have hd : isDigitPy c = true := natPrint_digits m c (by rw [hnp]; simp)
      have hminus : c ≠ '-' := by
        intro h
        rw [h] at hd
        exact absurd hd (by decide)
      have hplus : c ≠ '+' := by
        intro h
        rw [h] at hd
        exact absurd hd (by decide)
      rw [pyParseIntChars, if_neg hminus, if_neg hplus, ← hnp, parseNat_natPrint]
      rfl
  | negSucc m =>
    show pyParseIntChars ('-' :: natPrint (m + 1)) = some (Int.negSucc m)
    rw [pyParseIntChars, if_pos rfl, parseNat_natPrint]
    simp [Int.negSucc_eq]

theorem digit_not_space {c : Char} (h : isDigitPy c = true) : isSpacePy c = false := by
  cases hsp : isSpacePy c
  · rfl
  · exfalso
    simp only [isSpacePy, Bool.or_eq_true, decide_eq_true_eq] at hsp
    have hc : c = ' ' ∨ c = '\t' ∨ c = '\n' ∨ c = '\r' ∨ c = '\x0b' ∨ c = '\x0c' ∨
        c = '\x1c' ∨ c = '\x1d' ∨ c = '\x1e' ∨ c = '\x1f' ∨ c = '\x85' ∨ c = '\xa0' := by
      tauto
    rcases hc with rfl|rfl|rfl|rfl|rfl|rfl|rfl|rfl|rfl|rfl|rfl|rfl <;>
      exact absurd h (by decide)

theorem dropWhile_of_head_false {p : Char → Bool} {l : List Char}
    (h : ∀ c ∈ l, p c = false) : l.dropWhile p = l := by
  cases l with
  | nil => rfl
  | cons c t => simp [List.dropWhile, h c (List.mem_cons_self _ _)]

theorem pyStrip_of_no_space {l : List Char} (h : ∀ c ∈ l, isSpacePy c = false) :
    pyStrip l = l := by
  unfold pyStrip stripBoth
  rw [dropWhile_of_head_false h]
  rw [dropWhile_of_head_false (fun c hc => h c (List.mem_reverse.mp hc))]
  exact List.reverse_reverse l

theorem pyStrInt_no_space (n : Int) : ∀ c ∈ (pyStrInt n).data, isSpacePy c = false := by
  cases n with
  | ofNat m => exact fun c hc => digit_not_space (natPrint_digits m c hc)
  | negSucc m =>
    intro c hc
    rcases List.mem_cons.mp hc with rfl | hc
    · decide
    · exact digit_not_space (natPrint_digits (m + 1) c hc)

/-- `_coerce_id_to_int(str(n)) = n` for every int `n`. -/
theorem coerce_pyStrInt (n : Int) : coerce_id_to_int (.vstr (pyStrInt n)) = n := by
  show (let s := pyStrip (pyStr (.vstr (pyStrInt n))).data
        if s.isEmpty then 0
        else match pyParseIntChars s with
          | some k => k
          | none =>
            match parseNatDigits (s.takeWhile isDigitPy) with
            | some m => (m : Int)
            | none => 0) = n
  have hs : pyStrip (pyStr (.vstr (pyStrInt n))).data = (pyStrInt n).data :=
    pyStrip_of_no_space (pyStrInt_no_space n)
  simp only [hs]
  have hne : (pyStrInt n).data.isEmpty = false := by
    cases n with
    | ofNat m =>
      show (natPrint m).isEmpty = false
      cases hnp : natPrint m with
      | nil => exact absurd hnp (natPrint_ne_nil m)
      | cons c rest => rfl
    | negSucc m => rfl
  rw [hne]
  simp only [Bool.false_eq_true, if_false, pyParseInt_pyStrInt n]

theorem add_working_sheet_get_ne (doc : PdfDocument) (idv : PyVal) (name : String)
    (pages : List PyVal) (k : Int) (h : k ≠ coerce_id_to_int idv) :
    dictGet (add_working_sheet doc idv name pages).working_sheets k
      = dictGet doc.working_sheets k := by
  by_cases hn : name = ""
  · simp [add_working_sheet, hn]
  · simp only [add_working_sheet, if_neg hn]
    exact dictGet_dictSet_ne _ _ _ _ h

theorem global_scan_go (pages : List String) (cands : List (String × String × Int))
    (d : PdfDocument) (ex : List Int) (id : Int) (B : List (String × List Int))
    (hid : dictGet d.working_sheets id = some B) (hex : id ∈ ex) :
    dictGet ((cands.foldl (global_scan_step pages) (d, ex)).1).working_sheets id
      = some B := by
  induction cands generalizing d ex with
  | nil => exact hid
  | cons c cs ih =>
    rw [List.foldl_cons]
    by_cases hmem : coerce_id_to_int (.vstr c.1) ∈ ex
    · rw [show global_scan_step pages (d, ex) c = (d, ex) by
        simp [global_scan_step, hmem]]
      exact ih d ex hid hex
    · have hstep : global_scan_step pages (d, ex) c
          = (add_working_sheet d (.vstr (pyStrInt (coerce_id_to_int (.vstr c.1))))
              (⟨pyStripChars stripSetNoDot (pyStrip c.2.1.data)⟩)
              ((if c.2.2 ≠ 0 then
                  (if c.2.2 ≤ determine_last_page pages c.2.2 (some (coerce_id_to_int (.vstr c.1))) none then
                    intRange c.2.2 (determine_last_page pages c.2.2 (some (coerce_id_to_int (.vstr c.1))) none)
                  else [])
                else
                  (match find_page_for_entry pages
                      (if coerce_id_to_int (.vstr c.1) ≠ 0 then some (coerce_id_to_int (.vstr c.1)) else none)
                      (if (⟨pyStripChars stripSetNoDot (pyStrip c.2.1.data)⟩ : String) ≠ "" then
                        some ⟨pyStripChars stripSetNoDot (pyStrip c.2.1.data)⟩ else none) with
                    | some f => [f]
                    | none => [])).map .vint),
             ex ++ [coerce_id_to_int (.vstr c.1)]) := by
        simp [global_scan_step, hmem]
      rw [hstep]
      refine ih _ _ ?_ (by simp [hex])
      rw [add_working_sheet_get_ne]
      · exact hid
      · rw [coerce_pyStrInt]
        intro hcontra
        rw [hcontra] at hex
        exact hmem hex

/-- **C7.** For every id that already has a bucket when the global-scan pass
starts, the pass leaves that id's entire entry (all names and page lists)
unchanged: `existing_ids` is initialised with all present ids, matches on
those ids are skipped, and every added entry goes under `str(id_int)` for
an id not in `existing_ids`. -/
theorem global_scan_preserves_existing (pages : List String) (doc : PdfDocument)
    (id : Int) (B : List (String × List Int))
    (h : dictGet doc.working_sheets id = some B) :
    dictGet (global_scan_pass pages doc).working_sheets id = some B := by
  unfold global_scan_pass
  refine global_scan_go pages _ doc _ id B h ?_
  exact List.mem_map.mpr ⟨(id, B), dictGet_mem h, rfl⟩

/-- Witness for C7: id 5 is present before the pass; the pages mention both
`AB 5` (skipped) and `AB 6` (added); bucket 5 is untouched. -/
theorem global_scan_preserves_existing_witness :
    dictGet (PdfDocument.working_sheets ⟨"f", "p", [(5, [("N", [1])])]⟩) 5
        = some [("N", [1])]
    ∧ dictGet (global_scan_pass ["AB 5 X 2", "AB 6 Y 3"]
        ⟨"f", "p", [(5, [("N", [1])])]⟩).working_sheets 5 = some [("N", [1])] :=
  ⟨by decide,
    global_scan_preserves_existing ["AB 5 X 2", "AB 6 Y 3"]
      ⟨"f", "p", [(5, [("N", [1])])]⟩ 5 [("N", [1])] (by decide)⟩

/-! ## C8 — empty page sequence -/

/-- **C8.** With an empty page-text sequence `identify_working_sheets`
returns the input document model unchanged (the guard at lines 214–216);
the embedding is a total function, so no exception is possible on this
path. -/
theorem identify_working_sheets_empty (doc : PdfDocument) :
    identify_working_sheets [] doc = doc := rfl

/-! ## C9 — deserialization robustness -/

/-- A stored page value survives `_normalize_pages(pages or [])` without a
`TypeError`: it is falsy (replaced by `[]`) or iterable. -/
def PagesIterable (pv : PyVal) : Prop :=
  (pyIterElems (if pyTruthy pv then pv else .vlist [])).isSome = true

instance (pv : PyVal) : Decidable (PagesIterable pv) := by
  unfold PagesIterable
  infer_instance

/-- The id-bucket items of a `working_sheets` value (empty for non-dicts). -/
def bucketOf : PyVal → List (PyVal × PyVal)
  | .vdict b => b
  | _ => []

/-- The top-level entries `from_dict` iterates over. -/
def ws_entries (data : List (PyVal × PyVal)) : List (PyVal × PyVal) :=
  let wsv := (dictGetStr data "working_sheets").getD .vnone
  bucketOf (if pyTruthy wsv then wsv else .vdict [])

/-- Is a value a Python dict? -/
def isPyDict : PyVal → Bool
  | .vdict _ => true
  | _ => false

theorem from_dict_item_isSome (id_key : Int) (ws : List (Int × List (String × List Int)))
    (nk pv : PyVal) (h : PagesIterable pv) :
    (from_dict_item id_key ws nk pv).isSome = true := by
  unfold from_dict_item
  unfold PagesIterable at h
  cases hit : pyIterElems (if pyTruthy pv then pv else .vlist []) with
  | none => rw [hit] at h; simp at h
  | some elems => by_cases hn : (normalize_pages elems).isEmpty <;> simp [hn]

theorem from_dict_entry_isSome (ws : List (Int × List (String × List Int)))
    (kv : PyVal × PyVal) (h : ∀ np ∈ bucketOf kv.2, PagesIterable np.2) :
    (from_dict_entry ws kv).isSome = true := by
  obtain ⟨k, v⟩ := kv
  cases v with
  | vdict bucket =>
    simp only [from_dict_entry]
    simp only [bucketOf] at h
    induction bucket generalizing ws with
    | nil => rfl
    | cons np rest ih =>
      rw [List.foldlM_cons]
      have hsome := from_dict_item_isSome (coerce_id_to_int k) ws np.1 np.2
        (h np (List.mem_cons_self _ _))
      cases hit : from_dict_item (coerce_id_to_int k) ws np.1 np.2 with
      | none => rw [hit] at hsome; simp at hsome
      | some ws' =>
        simp only [Option.bind_eq_bind, Option.some_bind]
        exact ih ws' (fun np' hnp' => h np' (List.mem_cons_of_mem _ hnp'))
  | vstr s => rfl
  | vint n => rfl
  | vnone => rfl
  | vlist l => rfl

theorem entries_fold_isSome (entries : List (PyVal × PyVal))
    (ws0 : List (Int × List (String × List Int)))
    (h : ∀ kv ∈ entries, ∀ np ∈ bucketOf kv.2, PagesIterable np.2) :
    (entries.foldlM from_dict_entry ws0).isSome = true := by
  induction entries generalizing ws0 with
  | nil => rfl
  | cons kv rest ih =>
    rw [List.foldlM_cons]
    have hsome := from_dict_entry_isSome ws0 kv (h kv (List.mem_cons_self _ _))
    cases hit : from_dict_entry ws0 kv with
    | none => rw [hit] at hsome; simp at hsome
    | some ws' =>
      simp only [Option.bind_eq_bind, Option.some_bind]
      exact ih ws' (fun kv' hkv' => h kv' (List.mem_cons_of_mem _ hkv'))

/-- **C9, counterexample.** The claim as stated fails: on
`{"working_sheets": {"1": {"n": 5}}}` the truthy, non-iterable page value
`5` reaches `for p in pages` inside `_normalize_pages` and raises a
`TypeError` (modelled as `none`) instead of being skipped. -/
theorem from_dict_counterexample :
    from_dict [(.vstr "working_sheets",
      .vdict [(.vstr "1", .vdict [(.vstr "n", .vint 5)])])] = none := by
  decide

/-- **C9, amended.** `from_dict` returns a `PdfDocument` without raising
provided every stored page collection is iterable or falsy; a non-dict
`working_sheets` value is ignored, and non-dict id-bucket entries are
skipped (removing them from the input changes nothing) and deserialization
continues with the remaining entries.  A truthy non-iterable page value
(e.g. an int) still raises. -/
theorem from_dict_total (data : List (PyVal × PyVal))
    (h : ∀ kv ∈ ws_entries data, ∀ np ∈ bucketOf kv.2, PagesIterable np.2) :
    (from_dict data).isSome = true
    ∧ ∀ (entries : List (PyVal × PyVal)) (ws0 : List (Int × List (String × List Int))),
        entries.foldlM from_dict_entry ws0
          = (entries.filter (fun kv => isPyDict kv.2)).foldlM from_dict_entry ws0 := by
  constructor
  · simp only [from_dict]
    have h' : ∀ kv ∈ bucketOf (if pyTruthy ((dictGetStr data "working_sheets").getD .vnone)
        then (dictGetStr data "working_sheets").getD .vnone else .vdict []),
        ∀ np ∈ bucketOf kv.2, PagesIterable np.2 := h
    cases hws : (if pyTruthy ((dictGetStr data "working_sheets").getD .vnone) then
        (dictGetStr data "working_sheets").getD .vnone else .vdict []) with
    | vdict entries =>
      rw [hws] at h'
      simp only [bucketOf] at h'
      have hf := entries_fold_isSome entries [] h'
      cases hfold : entries.foldlM from_dict_entry [] with
      | none => rw [hfold] at hf; simp at hf
      | some ws' => simp [hfold]
    | vstr s => simp
    | vint n => simp
    | vnone => simp
    | vlist l => simp
  · intro entries ws0
    induction entries generalizing ws0 with
    | nil => rfl
    | cons kv rest ih =>
      obtain ⟨k, v⟩ := kv
      cases v with
      | vdict bucket => simp only [List.filter_cons, isPyDict, if_pos]; rw [List.foldlM_cons, List.foldlM_cons]; cases hfo : from_dict_entry ws0 (k, .vdict bucket) with
        | none => rfl
        | some ws' => simp only [Option.bind_eq_bind, Option.some_bind]; exact ih ws'
      | vstr s => rw [List.foldlM_cons]; simpa [from_dict_entry, isPyDict] using ih ws0
      | vint n => rw [List.foldlM_cons]; simpa [from_dict_entry, isPyDict] using ih ws0
      | vnone => rw [List.foldlM_cons]; simpa [from_dict_entry, isPyDict] using ih ws0
      | vlist l => rw [List.foldlM_cons]; simpa [from_dict_entry, isPyDict] using ih ws0

/-- Witness for the amended C9: a legacy (non-dict) entry next to a valid
bucket; deserialization succeeds and filtering the legacy entry away is a
no-op. -/
theorem from_dict_total_witness :
    (∀ kv ∈ ws_entries [(.vstr "working_sheets",
        .vdict [(.vstr "1", .vstr "legacy"),
                (.vstr "2", .vdict [(.vstr "n", .vlist [.vint 3])])])],
      ∀ np ∈ bucketOf kv.2, PagesIterable np.2)
    ∧ (from_dict [(.vstr "working_sheets",
        .vdict [(.vstr "1", .vstr "legacy"),
                (.vstr "2", .vdict [(.vstr "n", .vlist [.vint 3])])])]).isSome = true :=
  ⟨by decide,
    (from_dict_total [(.vstr "working_sheets",
      .vdict [(.vstr "1", .vstr "legacy"),
              (.vstr "2", .vdict [(.vstr "n", .vlist [.vint 3])])])] (by decide)).1⟩

/-! ## C10 — serialization round trip -/

/-- What the round trip keeps: entries with a non-empty page list, ids whose
buckets become empty disappearing entirely. -/
def dropEmptyWS (ws : List (Int × List (String × List Int))) :
    List (Int × List (String × List Int)) :=
  (ws.map (fun kb => (kb.1, kb.2.filter (fun np => !np.2.isEmpty)))).filter
    (fun kb => !kb.2.isEmpty)

/-- The partially rebuilt model while one id bucket is being deserialized:
nothing is stored for the id until its first non-empty page list arrives. -/
def bucketState (acc : List (Int × List (String × List Int))) (k : Int)
    (cur : List (String × List Int)) : List (Int × List (String × List Int)) :=
  if cur.isEmpty then acc else acc ++ [(k, cur)]

theorem dictGet_append_of_none {α β : Type} [DecidableEq α]
    {a : List (α × β)} (b : List (α × β)) {k : α} (h : dictGet a k = none) :
    dictGet (a ++ b) k = dictGet b k := by
  induction a with
  | nil => rfl
  | cons kv rest ih =>
    obtain ⟨k0, v0⟩ := kv
    by_cases h0 : k0 = k
    · simp [dictGet, h0] at h
    · simp only [dictGet, if_neg h0] at h
      rw [List.cons_append]
      simp only [dictGet, if_neg h0]
      exact ih h

theorem dictSet_append_of_none {α β : Type} [DecidableEq α]
    {a : List (α × β)} {k : α} (v : β) (h : dictGet a k = none) :
    dictSet a k v = a ++ [(k, v)] := by
  induction a with
  | nil => rfl
  | cons kv rest ih =>
    obtain ⟨k0, v0⟩ := kv
    by_cases h0 : k0 = k
    · simp [dictGet, h0] at h
    · simp only [dictGet, if_neg h0] at h
      simp only [dictSet, if_neg h0, List.cons_append, List.cons.injEq, true_and]
      exact ih h

theorem dictSet_append_right {α β : Type} [DecidableEq α]
    {a : List (α × β)} (b : List (α × β)) {k : α} (v : β) (h : dictGet a k = none) :
    dictSet (a ++ b) k v = a ++ dictSet b k v := by
  induction a with
  | nil => rfl
  | cons kv rest ih =>
    obtain ⟨k0, v0⟩ := kv
    by_cases h0 : k0 = k
    · simp [dictGet, h0] at h
    · simp only [dictGet, if_neg h0] at h
      rw [List.cons_append, List.cons_append]
      simp only [dictSet, if_neg h0, List.cons.injEq, true_and]
      exact ih h

theorem filterMap_pyInt_vint (L : List Int) : (L.map PyVal.vint).filterMap pyInt = L := by
  induction L with
  | nil => rfl
  | cons a l ih => simp [pyInt, ih]

theorem normalize_pages_map_vint {L : List Int} (h : PagesOK L) :
    normalize_pages (L.map .vint) = L := by
  unfold normalize_pages
  rw [filterMap_pyInt_vint]
  rw [List.filter_eq_self.mpr (fun a ha => decide_eq_true (by have := h.2 a ha; omega))]
  exact sortedDedup_eq_self h.1

theorem foldlM_map_opt {α β γ : Type} (f : α → β) (g : γ → β → Option γ)
    (l : List α) (init : γ) :
    (l.map f).foldlM g init = l.foldlM (fun a x => g a (f x)) init := by
  induction l generalizing init with
  | nil => rfl
  | cons a t ih =>
    rw [List.map_cons, List.foldlM_cons, List.foldlM_cons]
    cases g init (f a) with
    | none => rfl
    | some c => simp only [Option.bind_eq_bind, Option.some_bind]; exact ih c

theorem from_dict_item_ser (k : Int) (acc : List (Int × List (String × List Int)))
    (name : String) (L : List Int) (hok : PagesOK L) :
    from_dict_item k acc (.vstr name) (.vlist (L.map .vint))
      = if L.isEmpty then some acc
        else some (dictSet acc k (dictSet ((dictGet acc k).getD []) name L)) := by
  cases L with
  | nil => rfl
  | cons a l =>
    simp only [from_dict_item, List.map_cons, pyTruthy, List.isEmpty_cons,
      Bool.not_false, if_pos, pyIterElems]
    rw [show (PyVal.vint a :: l.map PyVal.vint) = (a :: l).map PyVal.vint from rfl]
    rw [normalize_pages_map_vint hok]
    simp [pyStr]

theorem inner_fold_ser (k : Int) (bucket : List (String × List Int))
    (acc : List (Int × List (String × List Int))) (cur : List (String × List Int))
    (hacc : dictGet acc k = none)
    (hok : ∀ np ∈ bucket, PagesOK np.2)
    (hcur : ∀ np ∈ bucket, dictGet cur np.1 = none)
    (hnodup : (bucket.map Prod.fst).Nodup) :
    bucket.foldlM
        (fun a np => from_dict_item k a (.vstr np.1) (.vlist (np.2.map .vint)))
        (bucketState acc k cur)
      = some (bucketState acc k (cur ++ bucket.filter (fun np => !np.2.isEmpty))) := by
  induction bucket generalizing cur with
  | nil => simp
  | cons np rest ih =>
    rw [List.map_cons, List.nodup_cons] at hnodup
    rw [List.foldlM_cons]
    rw [from_dict_item_ser k _ np.1 np.2 (hok np (List.mem_cons_self _ _))]
    by_cases hemp : np.2.isEmpty
    · rw [if_pos hemp]
      simp only [Option.bind_eq_bind, Option.some_bind]
      rw [ih cur (fun x hx => hok x (List.mem_cons_of_mem _ hx))
        (fun x hx => hcur x (List.mem_cons_of_mem _ hx)) hnodup.2]
      simp [List.filter_cons, hemp]
    · rw [if_neg hemp]
      simp only [Option.bind_eq_bind, Option.some_bind]
      have hstored : dictSet (bucketState acc k cur) k
          (dictSet ((dictGet (bucketState acc k cur) k).getD []) np.1 np.2)
          = bucketState acc k (cur ++ [(np.1, np.2)]) := by
        by_cases hc : cur.isEmpty
        · have hcur_nil : cur = [] := List.isEmpty_iff.mp hc
          subst hcur_nil
          have hb : bucketState acc k [] = acc := rfl
          have hbs : bucketState acc k ([] ++ [(np.1, np.2)])
              = acc ++ [(k, [(np.1, np.2)])] := by
            rw [List.nil_append]
            unfold bucketState
            rw [if_neg (by simp)]
          rw [hb, hbs, hacc]
          exact dictSet_append_of_none _ hacc
        · have hcne : cur ≠ [] := fun hh => by rw [hh] at hc; exact hc rfl
          have hb : bucketState acc k cur = acc ++ [(k, cur)] := by
            unfold bucketState
            rw [if_neg hc]
          have hg2 : dictGet (bucketState acc k cur) k = some cur := by
            rw [hb, dictGet_append_of_none _ hacc]
            simp [dictGet]
          rw [hg2]
          rw [show (some cur).getD ([] : List (String × List Int)) = cur from rfl]
          rw [hb]
          rw [dictSet_append_of_none _ (hcur np (List.mem_cons_self _ _))]
          rw [dictSet_append_right _ _ hacc]
          have hbs : bucketState acc k (cur ++ [(np.1, np.2)])
              = acc ++ [(k, cur ++ [(np.1, np.2)])] := by
            unfold bucketState
            rw [if_neg (by simp [hcne])]
          rw [hbs]
          congr 1
          simp [dictSet]
      rw [hstored]
      rw [ih (cur ++ [(np.1, np.2)]) (fun x hx => hok x (List.mem_cons_of_mem _ hx))
        ?_ hnodup.2]
      · rw [List.filter_cons, if_pos (by simp [hemp])]
        simp [List.append_assoc]
      · intro x hx
        rw [dictGet_append_of_none _ (hcur x (List.mem_cons_of_mem _ hx))]
        have hne : np.1 ≠ x.1 := by
          intro hcontra
          exact hnodup.1 (hcontra ▸ List.mem_map.mpr ⟨x, hx, rfl⟩)
        simp [dictGet, hne]

theorem from_dict_entry_ser (k : Int) (bucket : List (String × List Int))
    (acc : List (Int × List (String × List Int)))
    (hacc : dictGet acc k = none)
    (hok : ∀ np ∈ bucket, PagesOK np.2)
    (hnodup : (bucket.map Prod.fst).Nodup) :
    from_dict_entry acc (.vstr (pyStrInt k),
        .vdict (bucket.map (fun np => (.vstr np.1, .vlist (np.2.map .vint)))))
      = some (bucketState acc k (bucket.filter (fun np => !np.2.isEmpty))) := by
  simp only [from_dict_entry, coerce_pyStrInt]
  rw [foldlM_map_opt]
  have := inner_fold_ser k bucket acc [] hacc hok (fun np _ => rfl) hnodup
  simp only [bucketState, List.isEmpty_nil, if_pos, List.nil_append] at this
  convert this using 2

theorem outer_fold_ser (ws : List (Int × List (String × List Int)))
    (acc : List (Int × List (String × List Int)))
    (hfresh : ∀ kb ∈ ws, dictGet acc kb.1 = none)
    (hkeys : (ws.map Prod.fst).Nodup)
    (hnames : ∀ kb ∈ ws, (kb.2.map Prod.fst).Nodup)
    (hinv : ∀ kb ∈ ws, ∀ np ∈ kb.2, PagesOK np.2) :
    (ws.map (fun kb => ((.vstr (pyStrInt kb.1) : PyVal),
        (.vdict (kb.2.map (fun np => (.vstr np.1, .vlist (np.2.map .vint)))) : PyVal)))).foldlM
        from_dict_entry acc
      = some (acc ++ dropEmptyWS ws) := by
  induction ws generalizing acc with
  | nil => simp [dropEmptyWS]
  | cons kb rest ih =>
    rw [List.map_cons, List.nodup_cons] at hkeys
    rw [List.map_cons, List.foldlM_cons]
    rw [from_dict_entry_ser kb.1 kb.2 acc (hfresh kb (List.mem_cons_self _ _))
      (hinv kb (List.mem_cons_self _ _)) (hnames kb (List.mem_cons_self _ _))]
    simp only [Option.bind_eq_bind, Option.some_bind]
    have hkb : kb.1 ∉ (rest.map Prod.fst) := hkeys.1
    have hfresh' : ∀ kb' ∈ rest, dictGet (bucketState acc kb.1
        (kb.2.filter (fun np => !np.2.isEmpty))) kb'.1 = none := by
      intro kb' hkb'
      unfold bucketState
      by_cases hc : (kb.2.filter (fun np => !np.2.isEmpty)).isEmpty
      · simp only [hc, if_pos]
        exact hfresh kb' (List.mem_cons_of_mem _ hkb')
      · simp only [hc, Bool.false_eq_true, if_false]
        rw [dictGet_append_of_none _ (hfresh kb' (List.mem_cons_of_mem _ hkb'))]
        have hne : kb.1 ≠ kb'.1 := by
          intro hcontra
          exact hkb (hcontra ▸ List.mem_map.mpr ⟨kb', hkb', rfl⟩)
        simp [dictGet, hne]
    rw [ih _ hfresh' hkeys.2
      (fun kb' h' => hnames kb' (List.mem_cons_of_mem _ h'))
      (fun kb' h' => hinv kb' (List.mem_cons_of_mem _ h'))]
    unfold bucketState
    by_cases hc : (kb.2.filter (fun np => !np.2.isEmpty)).isEmpty
    · simp only [hc, if_pos]
      congr 1
      simp only [dropEmptyWS, List.map_cons, List.filter_cons]
      rw [if_neg (by simpa using hc)]
    · simp only [hc, Bool.false_eq_true, if_false]
      rw [List.append_assoc]
      congr 1
      simp only [dropEmptyWS, List.map_cons, List.filter_cons]
      rw [if_pos (by simpa using hc)]
      rfl

/-- **C10.** For every well-formed document model (unique ids, unique names
per id, page lists strictly ascending with pages ≥ 1 — exactly what the
model's own operations maintain), `from_dict(to_dict(d))` succeeds and
yields the model holding exactly the `(id, name)` entries of `d` whose page
list is non-empty, each with an identical page list; entries with an empty
page list (as created by `add_working_sheet` to preserve an unresolved
sheet name) are silently dropped, ids losing all their names included. -/
theorem from_dict_to_dict_roundtrip (doc : PdfDocument)
    (h1 : (doc.working_sheets.map Prod.fst).Nodup)
    (h2 : ∀ kb ∈ doc.working_sheets, (kb.2.map Prod.fst).Nodup)
    (h3 : ∀ kb ∈ doc.working_sheets, ∀ np ∈ kb.2, PagesOK np.2) :
    from_dict (to_dict doc)
      = some ⟨doc.pdf_filename, doc.pdf_path, dropEmptyWS doc.working_sheets⟩ := by
  have hg1 : dictGetStr (to_dict doc) "pdf_filename"
      = some (.vstr doc.pdf_filename) := rfl
  have hg2 : dictGetStr (to_dict doc) "pdf_path" = some (.vstr doc.pdf_path) := rfl
  have hg3 : dictGetStr (to_dict doc) "working_sheets"
      = some (.vdict (doc.working_sheets.map (fun kb =>
          ((.vstr (pyStrInt kb.1) : PyVal),
           (.vdict (kb.2.map (fun np =>
             (.vstr np.1, .vlist (np.2.map .vint)))) : PyVal))))) := rfl
  simp only [from_dict, hg1, hg2, hg3, Option.getD_some, pyStr]
  by_cases hemp : doc.working_sheets.isEmpty
  · have hnil : doc.working_sheets = [] := List.isEmpty_iff.mp hemp
    rw [hnil]
    simp [pyTruthy, dropEmptyWS]
  · have htr : pyTruthy (.vdict (doc.working_sheets.map (fun kb =>
        ((.vstr (pyStrInt kb.1) : PyVal),
         (.vdict (kb.2.map (fun np => (.vstr np.1, .vlist (np.2.map .vint)))) : PyVal)))))
        = true := by
      cases hmap : doc.working_sheets with
      | nil => rw [hmap] at hemp; exact absurd rfl hemp
      | cons kb rest => simp [pyTruthy]
    rw [htr]
    simp only [if_true]
    rw [outer_fold_ser doc.working_sheets [] (fun kb _ => rfl) h1 h2 h3]
    simp

/-- Witness for C10: a model with one non-empty and one empty entry; the
empty one is dropped by the round trip. -/
theorem from_dict_to_dict_roundtrip_witness :
    from_dict (to_dict ⟨"f", "p", [(5, [("N", [1, 2]), ("M", [])]), (6, [("K", [])])]⟩)
      = some ⟨"f", "p",
          dropEmptyWS [(5, [("N", [1, 2]), ("M", [])]), (6, [("K", [])])]⟩ :=
  from_dict_to_dict_roundtrip ⟨"f", "p", [(5, [("N", [1, 2]), ("M", [])]), (6, [("K", [])])]⟩
    (by decide) (by decide)
    (by
      intro kb hkb np hnp
      constructor
      · fin_cases hkb <;> fin_cases hnp <;> decide
      · fin_cases hkb <;> fin_cases hnp <;> (intro p hp; fin_cases hp <;> decide))

end WSPE
